import Mathlib

/-!
# Verification of the canvas state serialization/deserialization protocol

Shallow embedding of the canvas hash codec of this repository
(`serializeStateToHash` / `serializeObjectSegment` / `serializeCanvasSegment`,
`applyHashState`, `parseFlags`, `resolveContent`, `onHashChange` and the
debounced hash write of `scheduleHashUpdate`), translated from the main canvas
component source (src/unnamed/part_000).

Modelling conventions:
* JavaScript strings are modelled as `List Char` (`JSString`).
* JavaScript numbers are modelled as exact rationals (`ℚ`).  The codec only
  ever serializes values rounded to 3 decimal places
  (`Math.round(v*1000)/1000`), and for such values the JavaScript
  number-to-string / `parseFloat` pipeline is exact, which the model mirrors.
  Non-finite doubles (`Infinity`, `NaN` literals) are not representable; the
  model's `jsParseFloat` returns `none` exactly where JavaScript's `parseFloat`
  returns `NaN` (exponent notation is supported, the `Infinity` literal is not).
* `encodeURIComponent` / `decodeURIComponent` are modelled character-wise for
  code points below 0x80 (multi-byte UTF-8 escapes do not occur in the claims;
  theorems about them carry an ASCII hypothesis).  JavaScript's
  `decodeURIComponent` throws a `URIError` on malformed `%` escapes; the model
  instead passes the raw characters through (such inputs never arise from the
  encoder, whose output the round-trip lemma is about).
* `localStorage` and the in-memory `ephemeralTokens` map are modelled as
  association lists (`Store`); `generateId` is modelled as a fresh-id counter
  (the ids are process-local and excluded from every claim).
-/


/-- JavaScript strings, modelled as lists of characters. -/
abbrev JSString := List Char

/-- ASCII decimal digit test, `'0' ≤ c ≤ '9'`. -/
def isDigitChar (c : Char) : Bool := 48 ≤ c.toNat && c.toNat ≤ 57

/-- The character for a decimal digit `n < 10`. -/
def digitChar (n : Nat) : Char := Char.ofNat (48 + n)

/-- Value of a string of decimal digits, most significant first
(the usual left fold `acc * 10 + digit`). -/
def digitsVal (s : JSString) : Nat :=
  s.foldl (fun a c => a * 10 + (c.toNat - 48)) 0

/-- Decimal digits of `n`, most significant first (fuel-based recursion on
`n / 10`; `natDigits` instantiates the fuel with `n + 1`, which is enough). -/
def natDigitsAux : Nat → Nat → List Char
  | 0, _ => []
  | fuel + 1, n =>
    if n < 10 then [digitChar n]
    else natDigitsAux fuel (n / 10) ++ [digitChar (n % 10)]

/-- Decimal digits of `n`, most significant first. -/
def natDigits (n : Nat) : List Char := natDigitsAux (n + 1) n

/-- Strip trailing decimal zeros of a fraction `f` that has `k` decimal
places, returning the reduced fraction and its number of places. -/
def reduceTrailing : Nat → Nat → Nat × Nat
  | f, 0 => (f, 0)
  | f, k + 1 => if f % 10 = 0 then reduceTrailing (f / 10) k else (f, k + 1)

/-- JavaScript's default number-to-string conversion for the scaled value
`m / 10^k` (`m : ℤ`): optional sign, integer part, and — when the fraction is
nonzero — a `'.'` followed by the fraction's digits with trailing zeros
removed.  This is exactly what `${x}` produces for the 3-decimal-rounded
values the codec serializes. -/
def fmtUnsigned (k n : Nat) : JSString :=
  if (reduceTrailing (n % 10 ^ k) k).1 = 0 then natDigits (n / 10 ^ k)
  else
    natDigits (n / 10 ^ k) ++
      '.' :: (List.replicate ((reduceTrailing (n % 10 ^ k) k).2 -
          (natDigits (reduceTrailing (n % 10 ^ k) k).1).length) '0' ++
        natDigits (reduceTrailing (n % 10 ^ k) k).1)

/-- See the module docstring: sign followed by the unsigned decimal. -/
def fmtScaled (k : Nat) (m : ℤ) : JSString :=
  (if m < 0 then ['-'] else []) ++ fmtUnsigned k m.natAbs

/-- `Math.round`: round half toward positive infinity. -/
def jsRound (q : ℚ) : ℤ := (q + 1 / 2).floor

/-- The integer `Math.round(v * 1000)` underlying `roundNumber`. -/
def jsRound3 (q : ℚ) : ℤ := jsRound (q * 1000)

/-- `roundNumber(value) = Math.round(value * 1000) / 1000`. -/
def roundNum (q : ℚ) : ℚ := (jsRound3 q : ℚ) / 1000

/-- The string JavaScript interpolates for `roundNumber(q)`. -/
def fmtRounded (q : ℚ) : JSString := fmtScaled 3 (jsRound3 q)

/-- Whitespace skipped by `parseFloat` (the common code points). -/
def isSpaceChar (c : Char) : Bool :=
  c = ' ' || c = '\t' || c = '\n' || c = '\r'

/-- Digits of an exponent; an exponent marker followed by no digit contributes
the neutral exponent `0`, which coincides with `parseFloat` ignoring it. -/
def parseExpDigits (r : JSString) : ℤ := (digitsVal (r.takeWhile isDigitChar) : ℤ)

/-- Optional exponent suffix accepted by `parseFloat` after the mantissa:
`[eE][+-]?digits`. -/
def parseExp (s : JSString) : ℤ :=
  if s.head? = some 'e' || s.head? = some 'E' then
    if s.tail.head? = some '-' then -(parseExpDigits s.tail.tail)
    else if s.tail.head? = some '+' then parseExpDigits s.tail.tail
    else parseExpDigits s.tail
  else 0

/-- `q ^ e` for an integer exponent, phrased with `Nat` powers so that the
kernel can evaluate it (`zpow` does not reduce); see `qpowInt_eq_zpow`. -/
def qpowInt (q : ℚ) : ℤ → ℚ
  | Int.ofNat n => q ^ n
  | Int.negSucc n => 1 / q ^ (n + 1)

/-- Unsigned part of `parseFloat`: integer digits, optional `'.'` and fraction
digits, optional exponent; `none` when no digit was consumed (JavaScript's
`NaN`). -/
def parseUnsigned (s : JSString) : Option ℚ :=
  let ip := s.takeWhile isDigitChar
  let r1 := s.dropWhile isDigitChar
  let fp := if r1.head? = some '.' then r1.tail.takeWhile isDigitChar else []
  let r2 := if r1.head? = some '.' then r1.tail.dropWhile isDigitChar else r1
  if ip.isEmpty && fp.isEmpty then none
  else
    some (((digitsVal ip : ℚ) + (digitsVal fp : ℚ) / (10 : ℚ) ^ fp.length) *
      qpowInt 10 (parseExp r2))

/-- `parseFloat`, on finite results: leading whitespace, optional sign,
digits with optional fraction and exponent, trailing garbage ignored;
`none` where JavaScript returns `NaN`.  (The `Infinity` literal, which has no
rational value, is not modelled.) -/
def jsParseFloat (s : JSString) : Option ℚ :=
  let s1 := s.dropWhile isSpaceChar
  if s1.head? = some '-' then (parseUnsigned s1.tail).map (fun q => -q)
  else if s1.head? = some '+' then parseUnsigned s1.tail
  else parseUnsigned s1

/-! ## encodeURIComponent / decodeURIComponent (ASCII fragment) -/

/-- The characters `encodeURIComponent` leaves unescaped:
`A–Z a–z 0–9 - _ . ! ~ * ' ( )`. -/
def isUnreservedChar (c : Char) : Bool :=
  c.isAlphanum || c = '-' || c = '_' || c = '.' || c = '!' || c = '~' ||
    c = '*' || c = Char.ofNat 39 || c = '(' || c = ')'

/-- Upper-case hexadecimal digit for `n < 16` (as emitted by
`encodeURIComponent`). -/
def hexDigitChar (n : Nat) : Char :=
  if n < 10 then Char.ofNat (48 + n) else Char.ofNat (55 + n)

/-- Value of a hexadecimal digit (`decodeURIComponent` accepts both cases). -/
def hexVal (c : Char) : Option Nat :=
  if 48 ≤ c.toNat && c.toNat ≤ 57 then some (c.toNat - 48)
  else if 65 ≤ c.toNat && c.toNat ≤ 70 then some (c.toNat - 55)
  else if 97 ≤ c.toNat && c.toNat ≤ 102 then some (c.toNat - 87)
  else none

/-- One character of `encodeURIComponent` output (ASCII model, see the module
docstring). -/
def encodeURIComponentChar (c : Char) : JSString :=
  if isUnreservedChar c then [c]
  else ['%', hexDigitChar (c.toNat / 16), hexDigitChar (c.toNat % 16)]

/-- `encodeURIComponent` (ASCII model). -/
def encodeURIComponent : JSString → JSString
  | [] => []
  | c :: rest => encodeURIComponentChar c ++ encodeURIComponent rest

/-- Fuel-based worker for `decodeURIComponent` (structural recursion on the
fuel so that the definition reduces inside the kernel; the fuel is always
instantiated with the string length, which suffices). -/
def decodeURIComponentAux : Nat → JSString → JSString
  | 0, s => s
  | _ + 1, [] => []
  | fuel + 1, c :: rest =>
    if c = '%' then
      match rest with
      | a :: b :: r2 =>
        match hexVal a, hexVal b with
        | some x, some y => Char.ofNat (16 * x + y) :: decodeURIComponentAux fuel r2
        | _, _ => c :: decodeURIComponentAux fuel rest
      | _ => c :: decodeURIComponentAux fuel rest
    else c :: decodeURIComponentAux fuel rest

/-- `decodeURIComponent` (ASCII model); malformed `%` escapes are passed
through instead of throwing a `URIError` (they never occur in encoder
output). -/
def decodeURIComponent (s : JSString) : JSString := decodeURIComponentAux s.length s

/-! ## Data model: stores, flag values, scene objects, component state -/

/-- `localStorage` / `ephemeralTokens`, modelled as an association list
(first binding wins, as for a JS `Map` with distinct keys). -/
abbrev Store := List (JSString × JSString)

/-- `localStorage.getItem` / `Map.get`. -/
def storeLookup : Store → JSString → Option JSString
  | [], _ => none
  | e :: rest, k => if e.1 = k then some e.2 else storeLookup rest k

/-- A flag value as produced by `parseFlags`: `parseFloat`-coercible entries
are stored as numbers, everything else as the raw string.  Because the
decoder casts these values straight into object fields (`type`, `mode`),
those object fields are modelled as `FlagVal` too. -/
inductive FlagVal where
  | num (q : ℚ)
  | str (s : JSString)
deriving DecidableEq, Repr

/-- Smallest scale `k ≤ 20` at which `q * 10^k` is integral (20 decimal
places cover every value the codec round-trips; see `qToJsString`). -/
def qScaleK (q : ℚ) : Nat :=
  ((List.range 21).find? (fun k => (q * (10 : ℚ) ^ k).den = 1)).getD 20

/-- JavaScript `String(number)` for the rationals of this model: exact for
every terminating decimal of at most 20 places (which covers all values the
codec itself produces); other rationals are printed rounded to 20 places —
the boundary of the float abstraction, never reached by the claims. -/
def qToJsString (q : ℚ) : JSString :=
  fmtScaled (qScaleK q) (jsRound (q * (10 : ℚ) ^ qScaleK q))

/-- `String(v)` for a flag value. -/
def flagValToStr : FlagVal → JSString
  | .str s => s
  | .num q => qToJsString q

/-- JavaScript truthiness of a flag value (`0`, `''` are falsy). -/
def truthyFlag : FlagVal → Bool
  | .num q => decide (q ≠ 0)
  | .str s => !s.isEmpty

/-- String constants of the codec. -/
def strCanvas : JSString := ("canvas").data

def strImage : JSString := ("image").data

def strIframe : JSString := ("iframe").data

def strType : JSString := ("type").data

def strRatio : JSString := ("ratio").data

def strMode : JSString := ("mode").data

def strOg : JSString := ("og").data

/-- `'token:'` (the ref namespace of `createDataToken`). -/
def tokenPfx : JSString := ("token:").data

def httpPfx : JSString := ("http://").data

def httpsPfx : JSString := ("https://").data

/-- `dataFilePrefix = 'file-data-'`. -/
def dataFilePfx : JSString := ("file-data-").data

/-- The 1×1 transparent PNG placeholder (`transparentPixel` in the source). -/
def transparentPixel : JSString :=
  ("data:image/png;base64,iVBORw0KGgoAAAANSUhEUgAAAAEAAAABCAQAAAC1HAwCAAAAC0lEQVR42mP8/x8AAwMB/hsrLxkAAAAASUVORK5CYII=").data

/-- `baseSize = 200`. -/
def baseSize : ℚ := 200

/-- `minZoom = 0.1`. -/
def minZoom : ℚ := 1 / 10

/-- `maxZoom = 5`. -/
def maxZoom : ℚ := 5

/-- `String.prototype.startsWith`. -/
def jsStartsWith (s p : JSString) : Bool := decide (s.take p.length = p)

/-- `String.prototype.split` on a single character (JS semantics: an empty
string yields `['']`, and the result always has one more element than there
are separators). -/
def splitOnChar (c : Char) : JSString → List JSString
  | [] => [[]]
  | x :: xs =>
    let r := splitOnChar c xs
    if x = c then [] :: r
    else
      match r with
      | [] => [[x]]
      | h :: t => (x :: h) :: t

/-- Positions of every occurrence of `c` (the `slashIndexes` loop). -/
def indexesOfChar (c : Char) : JSString → List Nat
  | [] => []
  | x :: xs =>
    if x = c then 0 :: (indexesOfChar c xs).map (· + 1)
    else (indexesOfChar c xs).map (· + 1)

/-- `String.prototype.indexOf` for a single character. -/
def indexOfChar (c : Char) : JSString → Option Nat
  | [] => none
  | x :: xs => if x = c then some 0 else (indexOfChar c xs).map (· + 1)

/-- One scene object (`CanvasObject` in the source).  `type` and
`displayMode` are `FlagVal` because the decoder casts raw flag values into
them; `safeUrl` (an Angular sanitizer wrapper derived from `content`) and the
async-only fields are not part of the data model. -/
structure CanvasObject where
  id : Nat
  type : FlagVal
  x : ℚ
  y : ℚ
  width : ℚ
  height : ℚ
  rotation : ℚ
  content : JSString
  sourceRef : JSString
  originalAspectRatio : ℚ
  ogImage : Option JSString
  displayMode : Option FlagVal
  isFrameObject : Bool := false
  isEmptyFrame : Bool := false
deriving DecidableEq, Repr

/-- The canvas component state relevant to the codec and the hash-sync
controller.  `locationHash` is the addressable-location channel
(`window.location.hash`), `sessionLastHash` mirrors
`sessionStorage['canvasLastHash']`, and `nextId` is the fresh-id counter
standing in for `generateId`. -/
structure CanvasState where
  objects : List CanvasObject
  viewportX : ℚ
  viewportY : ℚ
  zoom : ℚ
  selectedObjectId : Option Nat
  lastSerializedHash : JSString
  sessionLastHash : Option JSString
  locationHash : JSString
  localStore : Store
  ephemeralTokens : Store
  restoredFromHash : Bool
  suppressHash : Bool
  hashDirty : Bool
  skipNextHashWrite : Bool
  initialFitScheduled : Bool
  nextId : Nat
deriving DecidableEq, Repr

/-! ## Encoding (`serializeStateToHash` and friends) -/

/-- `serializeCanvasSegment`. -/
def serializeCanvasSegment (st : CanvasState) : JSString :=
  strCanvas ++ ('/' :: (fmtRounded st.viewportX ++
    (',' :: (fmtRounded st.viewportY ++ (',' :: fmtRounded st.zoom)))))

/-- The 4-number transform block of `serializeObjectSegment`. -/
def objTransformString (o : CanvasObject) : JSString :=
  fmtRounded o.x ++ (',' :: (fmtRounded o.y ++
    (',' :: (fmtRounded (o.width / baseSize) ++ (',' :: fmtRounded o.rotation)))))

/-- The `mode:` flag, pushed only when `displayMode` is truthy. -/
def modePart (o : CanvasObject) : JSString :=
  match o.displayMode with
  | some m => if truthyFlag m then ',' :: (strMode ++ ':' :: flagValToStr m) else []
  | none => []

/-- The `og:` flag, pushed only when `ogImage` is truthy. -/
def ogPart (o : CanvasObject) : JSString :=
  match o.ogImage with
  | some g => if g.isEmpty then [] else ',' :: (strOg ++ ':' :: encodeURIComponent g)
  | none => []

/-- The flag list of `serializeObjectSegment` (`type`, `ratio`, then `mode`
and `og` when the corresponding field is truthy). -/
def objFlagsString (o : CanvasObject) : JSString :=
  strType ++ (':' :: (flagValToStr o.type ++
    (',' :: (strRatio ++ (':' ::
      fmtRounded (if o.width = 0 then 1 else o.height / o.width)))))) ++
    modePart o ++ ogPart o

/-- `serializeObjectSegment`. -/
def serializeObjectSegment (o : CanvasObject) : JSString :=
  encodeURIComponent o.sourceRef ++
    ('/' :: (objTransformString o ++ ('/' :: objFlagsString o)))

/-- `Array.prototype.join` on a one-character separator. -/
def joinSep (c : Char) : List JSString → JSString
  | [] => []
  | [x] => x
  | x :: y :: t => x ++ c :: joinSep c (y :: t)

/-- `serializeStateToHash`: the canvas segment followed by one segment per
object, skipping frame-app-only objects and empty frames, `'#'`-joined. -/
def serializeStateToHash (st : CanvasState) : JSString :=
  joinSep '#'
    (serializeCanvasSegment st ::
      (st.objects.filter (fun o => !o.isFrameObject && !o.isEmptyFrame)).map
        serializeObjectSegment)

/-! ## Decoding (`applyHashState` and friends) -/

/-- `parseFlags`: split on `','`, then for each entry split at the first
`':'` (entries with no separator or an empty key are skipped; a
`parseFloat`-coercible value is stored as a number). -/
def mapSet (m : List (JSString × FlagVal)) (k : JSString) (v : FlagVal) :
    List (JSString × FlagVal) :=
  match m with
  | [] => [(k, v)]
  | e :: rest => if e.1 = k then (k, v) :: rest else e :: mapSet rest k v

/-- `Map.get`. -/
def getFlag (m : List (JSString × FlagVal)) (k : JSString) : Option FlagVal :=
  match m with
  | [] => none
  | e :: rest => if e.1 = k then some e.2 else getFlag rest k

/-- One iteration of the `parseFlags` loop (`sep <= 0` entries skipped;
the redundant `!k` check of the source cannot fire since `sep > 0`). -/
def parseFlagEntry (m : List (JSString × FlagVal)) (entry : JSString) :
    List (JSString × FlagVal) :=
  match indexOfChar ':' entry with
  | none => m
  | some 0 => m
  | some sep =>
    mapSet m (entry.take sep)
      (match jsParseFloat (entry.drop (sep + 1)) with
       | some q => FlagVal.num q
       | none => FlagVal.str (entry.drop (sep + 1)))

/-- `parseFlags`. -/
def parseFlags (flags : JSString) : List (JSString × FlagVal) :=
  if flags.isEmpty then []
  else (splitOnChar ',' flags).foldl parseFlagEntry []

/-- Scheme characters after the first (`ALPHA *( ALPHA / DIGIT / + / - / . )`). -/
def isSchemeChar (c : Char) : Bool := c.isAlphanum || c = '+' || c = '-' || c = '.'

def lowerStr (s : JSString) : JSString := s.map Char.toLower

/-- The WHATWG special schemes that require a nonempty host (`file:` is
treated like a nonspecial scheme here — it never occurs in this codebase). -/
def specialSchemes : List JSString :=
  [("http").data, ("https").data, ("ws").data, ("wss").data, ("ftp").data]

/-- `isValidUrl` = `new URL(s)` succeeds.  Simplified WHATWG model: a valid
scheme followed by `':'`; special schemes additionally need a nonempty host
after optional slashes.  (Port/host character validation is not modelled; the
claims only use this on hypotheses or on concrete strings where the model
agrees with the browser.) -/
def isValidUrl (s : JSString) : Bool :=
  match s with
  | [] => false
  | c :: rest =>
    if c.isAlpha then
      match rest.dropWhile isSchemeChar with
      | ':' :: r2 =>
        if lowerStr (c :: rest.takeWhile isSchemeChar) ∈ specialSchemes then
          !((r2.dropWhile (fun d => d = '/' || d = '\\')).takeWhile
            (fun d => !(d = '/' || d = '\\' || d = '?' || d = '#'))).isEmpty
        else true
      | _ => false
    else false

/-- `makeFileKey`. -/
def makeFileKey (ref : JSString) : JSString := dataFilePfx ++ ref

/-- `readDataToken`: durable storage first (a falsy hit falls through), then
the in-memory `ephemeralTokens` map. -/
def readDataToken (store eph : Store) (token : JSString) : Option JSString :=
  match storeLookup store token with
  | some v => if v.isEmpty then storeLookup eph token else some v
  | none => storeLookup eph token

/-- Tail of `resolveContent` after the token and file lookups missed:
iframes need `isValidUrl`, images accept `http(s)://` refs; everything else
is unresolvable. -/
def resolveUnstored (ref : JSString) (ty : FlagVal) : Option JSString :=
  if ty = FlagVal.str strIframe then
    if isValidUrl ref then some ref else none
  else if jsStartsWith ref httpPfx || jsStartsWith ref httpsPfx then some ref
  else none

/-- `resolveContent`: `token:` refs go through `readDataToken`; otherwise the
file-keyed durable entry is consulted first (a truthy hit wins), then
`resolveUnstored`. -/
def resolveContent (store eph : Store) (ref : JSString) (ty : FlagVal) :
    Option JSString :=
  if jsStartsWith ref tokenPfx then
    readDataToken store eph (ref.drop tokenPfx.length)
  else
    match storeLookup store (makeFileKey ref) with
    | some v => if v.isEmpty then resolveUnstored ref ty else some v
    | none => resolveUnstored ref ty

/-- The block of `segment` between the slash pair `(p, q)`
(`segment.substring(firstSlash + 1, secondSlash)`). -/
def transformPartAt (s : JSString) (p q : Nat) : JSString :=
  (s.drop (p + 1)).take (q - (p + 1))

/-- Does the block between consecutive slashes `i` and `i+1` split on `','`
into exactly 4 `parseFloat`-parseable fields? -/
def validBlockAt (s : JSString) (idx : List Nat) (i : Nat) : Bool :=
  match idx[i]?, idx[i + 1]? with
  | some p, some q =>
    let parts := splitOnChar ',' (transformPartAt s p q)
    decide (parts.length = 4) && parts.all (fun x => (jsParseFloat x).isSome)
  | _, _ => false

/-- The `for (let i = slashIndexes.length - 2; i >= 0; i--)` walk: the first
(i.e. rightmost) consecutive slash pair enclosing a valid 4-float block
yields `(encodedRef, transformPart, flagsPart)`. -/
def scanFromIdx (s : JSString) (idx : List Nat) : Nat → Option (JSString × JSString × JSString)
  | 0 =>
    if validBlockAt s idx 0 then
      match idx[0]?, idx[1]? with
      | some p, some q => some (s.take p, transformPartAt s p q, s.drop (q + 1))
      | _, _ => none
    else none
  | i + 1 =>
    if validBlockAt s idx (i + 1) then
      match idx[i + 1]?, idx[i + 2]? with
      | some p, some q => some (s.take p, transformPartAt s p q, s.drop (q + 1))
      | _, _ => none
    else scanFromIdx s idx i

/-- The transform-block scan of `applyHashState`: segments with fewer than
two slashes are rejected up front; after the walk, a found block with an
empty `encodedRef` is rejected (`if (!encodedRef) continue`; the
`!transformPart` re-check of the source is unreachable because a valid block
has 4 fields). -/
def scanTransform (s : JSString) : Option (JSString × JSString × JSString) :=
  let idx := indexesOfChar '/' s
  if idx.length < 2 then none
  else
    match scanFromIdx s idx (idx.length - 2) with
    | some (r, t, f) => if r.isEmpty then none else some (r, t, f)
    | none => none

/-- The fold state of the decode loop. -/
structure DecodeState where
  objects : List CanvasObject
  seen : List JSString
  viewportX : ℚ
  viewportY : ℚ
  zoom : ℚ
  nextId : Nat
deriving DecidableEq, Repr

/-- The dedup key `${encodedRef}|${transformPart}|${flagsPart}`. -/
def segKey (r t f : JSString) : JSString := r ++ '|' :: t ++ '|' :: f

/-- Kernel-reducible `≤` test on ℚ (cross-multiplied numerators). -/
def qleb (a b : ℚ) : Bool := decide (a.num * (b.den : ℤ) ≤ b.num * (a.den : ℤ))

/-- `Math.max` (kernel-reducible formulation). -/
def jsMax (a b : ℚ) : ℚ := if qleb a b then b else a

/-- `Math.min` (kernel-reducible formulation). -/
def jsMin (a b : ℚ) : ℚ := if qleb a b then a else b

/-- `Math.max(minZoom, Math.min(maxZoom, v))`. -/
def clampZoom (v : ℚ) : ℚ := jsMax minZoom (jsMin maxZoom v)

/-- `transformPart.split(',').map(parseFloat)`. -/
def parsedNums (t : JSString) : List (Option ℚ) :=
  (splitOnChar ',' t).map jsParseFloat

/-- Array destructuring: a missing element is `undefined`, whose `parseFloat`
image is `NaN` (`none`). -/
def numAt (l : List (Option ℚ)) (i : Nat) : Option ℚ := (l[i]?).getD none

/-- `if (!Number.isNaN(vx)) nextViewportX = vx`. -/
def applyCanvasX (d : DecodeState) : Option ℚ → DecodeState
  | some v => { d with viewportX := v }
  | none => d

/-- `if (!Number.isNaN(vy)) nextViewportY = vy`. -/
def applyCanvasY (d : DecodeState) : Option ℚ → DecodeState
  | some v => { d with viewportY := v }
  | none => d

/-- `if (!Number.isNaN(vz)) nextZoom = Math.max(minZoom, Math.min(maxZoom, vz))`. -/
def applyCanvasZ (d : DecodeState) : Option ℚ → DecodeState
  | some v => { d with zoom := clampZoom v }
  | none => d

/-- The `ref === 'canvas'` branch: each of the first three parsed numbers
updates its viewport field when not `NaN`; the zoom is clamped. -/
def applyCanvasNums (d : DecodeState) (t : JSString) : DecodeState :=
  applyCanvasZ
    (applyCanvasY
      (applyCanvasX d (numAt (parsedNums t) 0))
      (numAt (parsedNums t) 1))
    (numAt (parsedNums t) 2)

/-- JavaScript truthiness of `resolveContent`'s result (`''` is falsy). -/
def contentTruthy : Option JSString → Bool
  | none => false
  | some s => !s.isEmpty

/-- `nextObjects.push({...})` with a fresh id, or `continue` when the
content could not be produced. -/
def pushWith (d : DecodeState) (mk : JSString → CanvasObject) :
    Option JSString → DecodeState
  | none => d
  | some content =>
    { d with objects := d.objects ++ [mk content], nextId := d.nextId + 1 }

/-- The object-building tail of the decode loop: flags, ratio, type, mode,
og, size derivation, content resolution with the transparent-pixel fallback
for images, and the push with a fresh id. -/
def pushObject (store eph : Store) (d : DecodeState) (ref flagsPart : JSString)
    (tx ty0 ts tr : ℚ) : DecodeState :=
  let fm := parseFlags flagsPart
  let safeRatio : ℚ :=
    match (getFlag fm strRatio).getD (FlagVal.num 1) with
    | FlagVal.num q => q
    | FlagVal.str s =>
      match jsParseFloat s with
      | some q => q
      | none => 1
  let ty := (getFlag fm strType).getD (FlagVal.str strImage)
  let mode := (getFlag fm strMode).getD (FlagVal.str strImage)
  let og := match getFlag fm strOg with
    | none => none
    | some v => if truthyFlag v then some (decodeURIComponent (flagValToStr v)) else none
  let width := baseSize * ts
  let rawContent := resolveContent store eph ref ty
  pushWith d
    (fun content => {
      id := d.nextId, type := ty, x := tx, y := ty0,
      width := width, height := width * safeRatio, rotation := tr,
      content := content, sourceRef := ref,
      originalAspectRatio := safeRatio, ogImage := og,
      displayMode := some mode })
    (if contentTruthy rawContent then rawContent
     else if ty = FlagVal.str strImage then some transparentPixel
     else none)

/-- The object branch after dedup: the destructuring
`const [tx, ty, ts, tr] = transformPart.split(',').map(parseFloat)` reads
elements 0–3 (`numAt`), and the `isNaN` re-check drops the segment when any
is `NaN` (which cannot fire after a valid scan but is kept faithfully). -/
def stepNums (store eph : Store) (d : DecodeState) (ref f : JSString)
    (nums : List (Option ℚ)) : DecodeState :=
  match numAt nums 0, numAt nums 1, numAt nums 2, numAt nums 3 with
  | some tx, some ty0, some ts, some tr => pushObject store eph d ref f tx ty0 ts tr
  | _, _, _, _ => d

/-- The body of the decode loop once the scan found `(r, t, f)`: dedup on the
composite key, then dispatch on `canvas` vs object segments. -/
def stepParsed (store eph : Store) (d : DecodeState) (r t f : JSString) : DecodeState :=
  if segKey r t f ∈ d.seen then d
  else if decodeURIComponent r = strCanvas then
    applyCanvasNums { d with seen := segKey r t f :: d.seen } t
  else
    stepNums store eph { d with seen := segKey r t f :: d.seen }
      (decodeURIComponent r) f (parsedNums t)

/-- One iteration of the decode loop of `applyHashState`. -/
def stepSegment (store eph : Store) (d : DecodeState) (seg : JSString) : DecodeState :=
  match scanTransform seg with
  | none => d
  | some (r, t, f) => stepParsed store eph d r t f

/-- `hash.startsWith('#') ? hash : '#' + hash`. -/
def ensureHashMark (h : JSString) : JSString :=
  if jsStartsWith h (['#']) then h else '#' :: h

/-- `applyHashState` (the synchronous decode; the asynchronous
`fitOnceAfterLoad` scheduling is reflected in `initialFitScheduled`, and the
fire-and-forget `fetchOgImage` refetch loop is an external collaborator). -/
def applyHashState (st : CanvasState) (hash : JSString) : CanvasState :=
  if hash.length ≤ 1 then st
  else
    let segments := (splitOnChar '#' (hash.drop 1)).filter (fun x => !x.isEmpty)
    if segments.isEmpty then st
    else
      let d := segments.foldl (stepSegment st.localStore st.ephemeralTokens)
        { objects := [], seen := [], viewportX := st.viewportX,
          viewportY := st.viewportY, zoom := st.zoom, nextId := st.nextId }
      { st with
        viewportX := d.viewportX, viewportY := d.viewportY, zoom := d.zoom,
        objects := d.objects, selectedObjectId := none,
        lastSerializedHash := ensureHashMark hash,
        sessionLastHash := some (ensureHashMark hash),
        initialFitScheduled := st.initialFitScheduled ||
          (!st.restoredFromHash && !d.objects.isEmpty),
        nextId := d.nextId }

/-! ## The hash-sync controller -/

/-- `onHashChange`: the clear branch for an empty fragment, the two echo
checks, the shorter-hash safety guard, and the apply branch. -/
def onHashChange (st : CanvasState) : CanvasState :=
  let currentHash := st.locationHash
  if currentHash = [] ∨ currentHash = ['#'] then
    { st with
      sessionLastHash := none, lastSerializedHash := [],
      suppressHash := false, objects := [], selectedObjectId := none,
      viewportX := 0, viewportY := 0, zoom := 1,
      hashDirty := false, skipNextHashWrite := true }
  else
    let currentSerialized := serializeStateToHash st
    let currentPrefixed := if currentSerialized = [] then [] else '#' :: currentSerialized
    if currentHash = currentPrefixed ∨ currentHash = st.lastSerializedHash then st
    else if st.objects ≠ [] ∧ currentHash.length < st.lastSerializedHash.length then
      { st with lastSerializedHash := currentPrefixed }
    else
      let st2 := applyHashState st currentHash
      { st2 with lastSerializedHash := currentHash }

/-- The debounced write body of `scheduleHashUpdate` (the `setTimeout`
callback): serialize, and write to the location, `lastSerializedHash` and the
session mirror only when changed from the last self-written value. -/
def flushHashWrite (st : CanvasState) : CanvasState :=
  let hash := serializeStateToHash st
  let prefixed := if hash = [] then [] else '#' :: hash
  if prefixed ≠ st.lastSerializedHash then
    { st with
      locationHash := prefixed, lastSerializedHash := prefixed,
      sessionLastHash := some prefixed, hashDirty := false }
  else { st with hashDirty := false }

/-- A convenient concrete component state (fresh canvas: empty scene,
default viewport, empty stores). -/
def initState : CanvasState :=
  { objects := [], viewportX := 0, viewportY := 0, zoom := 1,
    selectedObjectId := none, lastSerializedHash := [], sessionLastHash := none,
    locationHash := [], localStore := [], ephemeralTokens := [],
    restoredFromHash := false, suppressHash := false, hashDirty := false,
    skipNextHashWrite := false, initialFitScheduled := false, nextId := 0 }

def c9Url : JSString := ("https://example.com/a.png").data

def c9Blob : JSString := ("data:image/png;base64,AA==").data

def c7State : CanvasState := { initState with zoom := 2, viewportX := 3 }

/-! ## Fragments built from well-formed segments -/

/-- A `'#'`-prefixed fragment assembled from a list of segments. -/
def mkFragment (l : List JSString) : JSString := '#' :: joinSep '#' l

/-- The decode fold of `applyHashState` over a list of segments. -/
def decodeSegs (st : CanvasState) (l : List JSString) : DecodeState :=
  l.foldl (stepSegment st.localStore st.ephemeralTokens)
    { objects := [], seen := [], viewportX := st.viewportX,
      viewportY := st.viewportY, zoom := st.zoom, nextId := st.nextId }

def cvSeg : JSString := ("canvas/1,2,0.5").data

def okSeg : JSString := ("https%3A%2F%2Fe.x%2Fa.png/1,2,1,0/type:image,ratio:1").data

def badRef : JSString := ("bad").data

def badT : JSString := ("1,2,3").data

def badFlags : JSString := ("type:image").data

/-! ## Claim C2: the rightmost valid 4-float block wins -/

/-- The output built from slash pair `i`: everything before slash `i` is the
encoded reference, the block between slashes `i` and `i+1` is the transform
part, everything after slash `i+1` is the flags part. -/
def blockOut (s : JSString) (idx : List Nat) (i : Nat) : Option (JSString × JSString × JSString) :=
  match idx[i]?, idx[i + 1]? with
  | some p, some q => some (s.take p, transformPartAt s p q, s.drop (q + 1))
  | _, _ => none

def exSegment : JSString :=
  ("https://a.b/c/1,2,3,4/type:iframe,ratio:1,og:https://x.y/z.jpg").data

/-! ## Claim C3: unresolvable references — image placeholder, iframe drop -/

/-- The value of the `type` flag of a flags part (defaulting to `image`). -/
def flagType (f : JSString) : FlagVal :=
  (getFlag (parseFlags f) strType).getD (FlagVal.str strImage)

def emptyDecode : DecodeState := ⟨[], [], 0, 0, 1, 0⟩

/-! ## Claim C1 (corrected): round-trip infrastructure -/

/-- The flag-value cast of `parseFlags` (`Number.isNaN(num) ? value : num`). -/
def numOrStr (v : JSString) : FlagVal :=
  match jsParseFloat v with
  | some q => FlagVal.num q
  | none => FlagVal.str v

/-- The serialized aspect ratio (`width === 0 ? 1 : height / width`). -/
def objRatio (o : CanvasObject) : ℚ := if o.width = 0 then 1 else o.height / o.width

/-- The well-formedness class of the round-trip claim: an object whose content
reference is an absolute `http(s)` ASCII URL (iframes additionally
`new URL`-valid), whose `content` is that reference, with no shadowing
durable-storage entry, flag-safe `type`/`mode` values, a truthy absolute-URL
ASCII `ogImage` when present, and not a frame-app object. -/
def objOK (store : Store) (o : CanvasObject) : Prop :=
  (jsStartsWith o.sourceRef httpPfx = true ∨ jsStartsWith o.sourceRef httpsPfx = true) ∧
  (∀ c ∈ o.sourceRef, c.toNat < 128) ∧
  o.content = o.sourceRef ∧
  storeLookup store (makeFileKey o.sourceRef) = none ∧
  (∃ tyS, o.type = FlagVal.str tyS ∧ (tyS = strImage ∨ tyS = strIframe) ∧
    (tyS = strIframe → isValidUrl o.sourceRef = true)) ∧
  (∃ dm, o.displayMode = some (FlagVal.str dm) ∧ (dm = strImage ∨ dm = strIframe)) ∧
  (∀ g, o.ogImage = some g →
    (jsStartsWith g httpPfx = true ∨ jsStartsWith g httpsPfx = true) ∧
    (∀ c ∈ g, c.toNat < 128)) ∧
  o.isFrameObject = false ∧ o.isEmptyFrame = false

/-- `safeRatio` of the decode loop. -/
def safeRatioOf (fm : List (JSString × FlagVal)) : ℚ :=
  match (getFlag fm strRatio).getD (FlagVal.num 1) with
  | FlagVal.num q => q
  | FlagVal.str s =>
    match jsParseFloat s with
    | some q => q
    | none => 1

/-- The `og` field of the decode loop. -/
def ogOf (fm : List (JSString × FlagVal)) : Option JSString :=
  match getFlag fm strOg with
  | none => none
  | some v => if truthyFlag v then some (decodeURIComponent (flagValToStr v)) else none

/-- The image of a scene object under one encode/decode round trip: numeric
fields are rounded to 3 decimal places (width through the scale factor,
height through width and the rounded ratio), the `id` is freshly generated,
and everything else is recovered exactly. -/
def roundTripped (n : Nat) (o : CanvasObject) : CanvasObject :=
  { id := n, type := o.type, x := roundNum o.x, y := roundNum o.y,
    width := baseSize * roundNum (o.width / baseSize),
    height := baseSize * roundNum (o.width / baseSize) * roundNum (objRatio o),
    rotation := roundNum o.rotation,
    content := o.sourceRef, sourceRef := o.sourceRef,
    originalAspectRatio := roundNum (objRatio o),
    ogImage := o.ogImage, displayMode := o.displayMode }

def roundTrippedList (n : Nat) : List CanvasObject → List CanvasObject
  | [] => []
  | o :: rest => roundTripped n o :: roundTrippedList (n + 1) rest

/-- The dedup key of the serialized segment of `o`. -/
def objSegKey (o : CanvasObject) : JSString :=
  segKey (encodeURIComponent o.sourceRef) (objTransformString o) (objFlagsString o)

def c1Url : JSString := ("http://a").data

def c1Obj : CanvasObject :=
  { id := 0, type := FlagVal.str strImage, x := 1, y := 2, width := 200, height := 100,
    rotation := 0, content := c1Url, sourceRef := c1Url, originalAspectRatio := 1 / 2,
    ogImage := none, displayMode := some (FlagVal.str strImage) }

def c1State : CanvasState := { initState with objects := [c1Obj] }

def c1DupState : CanvasState := { initState with objects := [c1Obj, c1Obj] }

/-! ## Theorems -/

/-! ## Digit strings: basic lemmas -/

theorem digitChar_toNat (n : Nat) (h : n < 10) : (digitChar n).toNat = 48 + n := by
  interval_cases n <;> decide

theorem isDigitChar_digitChar (n : Nat) (h : n < 10) :
    isDigitChar (digitChar n) = true := by
  interval_cases n <;> decide

theorem natDigitsAux_eq (f₁ f₂ n : Nat) (h₁ : n < f₁) (h₂ : n < f₂) :
    natDigitsAux f₁ n = natDigitsAux f₂ n := by
  induction f₁ generalizing f₂ n with
  | zero => omega
  | succ f ih =>
    cases f₂ with
    | zero => omega
    | succ g =>
      simp only [natDigitsAux]
      by_cases hn : n < 10
      · simp [hn]
      · simp only [hn, if_false]
        have hd : n / 10 < n := Nat.div_lt_self (by omega) (by omega)
        rw [ih g (n / 10) (by omega) (by omega)]

theorem natDigits_step (n : Nat) (h : 10 ≤ n) :
    natDigits n = natDigits (n / 10) ++ [digitChar (n % 10)] := by
  have hd : n / 10 < n := Nat.div_lt_self (by omega) (by omega)
  have h1 : natDigits n = natDigitsAux n (n / 10) ++ [digitChar (n % 10)] := by
    show natDigitsAux (n + 1) n = _
    simp only [natDigitsAux]
    rw [if_neg (by omega)]
  have h2 : natDigits (n / 10) = natDigitsAux n (n / 10) :=
    natDigitsAux_eq (n / 10 + 1) n (n / 10) (by omega) (by omega)
  rw [h1, h2]

theorem natDigits_small (n : Nat) (h : n < 10) : natDigits n = [digitChar n] := by
  simp [natDigits, natDigitsAux, h]

theorem natDigits_ne_nil (n : Nat) : natDigits n ≠ [] := by
  by_cases h : n < 10
  · rw [natDigits_small n h]; simp
  · rw [natDigits_step n (by omega)]; simp

theorem natDigits_all_digit (n : Nat) : ∀ c ∈ natDigits n, isDigitChar c = true := by
  induction n using Nat.strong_induction_on with
  | _ n ih =>
    by_cases h : n < 10
    · rw [natDigits_small n h]
      intro c hc
      simp at hc
      subst hc
      exact isDigitChar_digitChar n h
    · rw [natDigits_step n (by omega)]
      intro c hc
      rcases List.mem_append.1 hc with hc | hc
      · exact ih (n / 10) (Nat.div_lt_self (by omega) (by omega)) c hc
      · simp at hc
        subst hc
        exact isDigitChar_digitChar (n % 10) (Nat.mod_lt _ (by omega))

theorem digitsVal_from (l : JSString) (acc : Nat) :
    l.foldl (fun a c => a * 10 + (c.toNat - 48)) acc =
      acc * 10 ^ l.length + digitsVal l := by
  induction l generalizing acc with
  | nil => simp [digitsVal]
  | cons c l ih =>
    simp only [List.foldl_cons, List.length_cons, digitsVal]
    rw [ih (acc * 10 + (c.toNat - 48)), ih (0 * 10 + (c.toNat - 48))]
    ring

theorem digitsVal_append (a b : JSString) :
    digitsVal (a ++ b) = digitsVal a * 10 ^ b.length + digitsVal b := by
  simp only [digitsVal, List.foldl_append]
  rw [digitsVal_from b (List.foldl (fun a c => a * 10 + (c.toNat - 48)) 0 a)]
  rfl

theorem digitsVal_natDigits (n : Nat) : digitsVal (natDigits n) = n := by
  induction n using Nat.strong_induction_on with
  | _ n ih =>
    by_cases h : n < 10
    · rw [natDigits_small n h]
      simp [digitsVal, digitChar_toNat n h]
    · rw [natDigits_step n (by omega), digitsVal_append]
      rw [ih (n / 10) (Nat.div_lt_self (by omega) (by omega))]
      simp [digitsVal, digitChar_toNat (n % 10) (Nat.mod_lt _ (by omega))]
      omega

theorem natDigits_length_le (n j : Nat) (hj : 0 < j) (h : n < 10 ^ j) :
    (natDigits n).length ≤ j := by
  induction n using Nat.strong_induction_on generalizing j with
  | _ n ih =>
    by_cases hn : n < 10
    · rw [natDigits_small n hn]; simpa using hj
    · have hj2 : 2 ≤ j := by
        by_contra hc
        have : j = 1 := by omega
        subst this
        simp at h
        omega
      rw [natDigits_step n (by omega)]
      have := ih (n / 10) (Nat.div_lt_self (by omega) (by omega)) (j - 1) (by omega)
        (by
          have : n < 10 ^ j := h
          have hpow : 10 ^ j = 10 ^ (j - 1) * 10 := by
            rw [← pow_succ]
            congr 1
            omega
          rw [hpow] at this
          exact Nat.div_lt_of_lt_mul (by omega))
      simp only [List.length_append, List.length_cons, List.length_nil]
      omega

theorem digitsVal_replicate_zero (j : Nat) (b : JSString) :
    digitsVal (List.replicate j '0' ++ b) = digitsVal b := by
  rw [digitsVal_append]
  have : digitsVal (List.replicate j '0') = 0 := by
    induction j with
    | zero => rfl
    | succ j ihj =>
      rw [List.replicate_succ]
      have : digitsVal ('0' :: List.replicate j '0') =
          List.foldl (fun a c => a * 10 + (c.toNat - 48)) 0 (List.replicate j '0') := by
        simp [digitsVal]
      rw [this, digitsVal_from, ihj]
      simp
  rw [this]
  simp

theorem reduceTrailing_spec (k f : Nat) :
    (reduceTrailing f k).2 ≤ k ∧
    (reduceTrailing f k).1 * 10 ^ (k - (reduceTrailing f k).2) = f ∧
    (f < 10 ^ k → (reduceTrailing f k).1 < 10 ^ (reduceTrailing f k).2) := by
  induction k generalizing f with
  | zero => simp [reduceTrailing]
  | succ k ih =>
    by_cases h : f % 10 = 0
    · have hr : reduceTrailing f (k + 1) = reduceTrailing (f / 10) k := by
        simp [reduceTrailing, h]
      rw [hr]
      obtain ⟨h1, h2, h3⟩ := ih (f / 10)
      refine ⟨by omega, ?_, ?_⟩
      · have hk : k + 1 - (reduceTrailing (f / 10) k).2 =
            (k - (reduceTrailing (f / 10) k).2) + 1 := by omega
        rw [hk, pow_succ, ← Nat.mul_assoc, h2]
        omega
      · intro hf
        apply h3
        rw [pow_succ] at hf
        exact Nat.div_lt_of_lt_mul (by omega)
    · have hr : reduceTrailing f (k + 1) = (f, k + 1) := by
        simp [reduceTrailing, h]
      rw [hr]
      simp

/-! ## takeWhile / dropWhile span lemmas -/

theorem takeWhile_all {p : Char → Bool} (a : JSString) (ha : ∀ c ∈ a, p c = true) :
    a.takeWhile p = a := by
  induction a with
  | nil => rfl
  | cons c a ih =>
    rw [List.takeWhile_cons, ha c (by simp)]
    simp [ih fun x hx => ha x (by simp [hx])]

theorem dropWhile_all {p : Char → Bool} (a : JSString) (ha : ∀ c ∈ a, p c = true) :
    a.dropWhile p = [] := by
  induction a with
  | nil => rfl
  | cons c a ih =>
    rw [List.dropWhile_cons, ha c (by simp)]
    simp [ih fun x hx => ha x (by simp [hx])]

theorem dropWhile_head_neg {p : Char → Bool} (l : JSString)
    (h : ∀ c, l.head? = some c → p c = false) : l.dropWhile p = l := by
  cases l with
  | nil => rfl
  | cons c l => rw [List.dropWhile_cons, h c rfl]; simp

theorem takeWhile_append_not {p : Char → Bool} (a b : JSString)
    (ha : ∀ c ∈ a, p c = true) (hb : ∀ c, b.head? = some c → p c = false) :
    (a ++ b).takeWhile p = a := by
  induction a with
  | nil =>
    cases b with
    | nil => rfl
    | cons c b => simpa [List.takeWhile_cons] using hb c rfl
  | cons c a ih =>
    rw [List.cons_append, List.takeWhile_cons, ha c (by simp)]
    simp [ih fun x hx => ha x (by simp [hx])]

theorem dropWhile_append_not {p : Char → Bool} (a b : JSString)
    (ha : ∀ c ∈ a, p c = true) (hb : ∀ c, b.head? = some c → p c = false) :
    (a ++ b).dropWhile p = b := by
  induction a with
  | nil => exact dropWhile_head_neg b hb
  | cons c a ih =>
    rw [List.cons_append, List.dropWhile_cons, ha c (by simp)]
    simp [ih fun x hx => ha x (by simp [hx])]

/-! ## Character class facts -/

theorem isDigitChar_iff (c : Char) :
    isDigitChar c = true ↔ 48 ≤ c.toNat ∧ c.toNat ≤ 57 := by
  simp [isDigitChar]

theorem digit_not_space (c : Char) (h : isDigitChar c = true) :
    isSpaceChar c = false := by
  rw [isDigitChar_iff] at h
  by_contra hc
  rw [Bool.not_eq_false] at hc
  simp only [isSpaceChar, Bool.or_eq_true, decide_eq_true_eq] at hc
  rcases hc with ((rfl | rfl) | rfl) | rfl <;> exact absurd h (by decide)

theorem digit_ne_minus (c : Char) (h : isDigitChar c = true) : c ≠ '-' := by
  rw [isDigitChar_iff] at h
  rintro rfl
  exact absurd h (by decide)

theorem digit_ne_plus (c : Char) (h : isDigitChar c = true) : c ≠ '+' := by
  rw [isDigitChar_iff] at h
  rintro rfl
  exact absurd h (by decide)

theorem digit_ne_dot (c : Char) (h : isDigitChar c = true) : c ≠ '.' := by
  rw [isDigitChar_iff] at h
  rintro rfl
  exact absurd h (by decide)

theorem not_digit_dot : isDigitChar '.' = false := by decide

/-! ## parseFloat recovers the formatted value -/

theorem parseExp_nil : parseExp [] = 0 := by simp [parseExp]

theorem qpowInt_zero (q : ℚ) : qpowInt q 0 = 1 := by
  show qpowInt q (Int.ofNat 0) = 1
  unfold qpowInt
  exact pow_zero q

theorem qpowInt_eq_zpow (q : ℚ) (e : ℤ) : qpowInt q e = q ^ e := by
  cases e with
  | ofNat n =>
    show q ^ n = q ^ (n : ℤ)
    exact (zpow_natCast q n).symm
  | negSucc n =>
    show 1 / q ^ (n + 1) = q ^ Int.negSucc n
    rw [zpow_negSucc, one_div]

theorem parseUnsigned_digits (a : JSString) (ha : ∀ c ∈ a, isDigitChar c = true)
    (hne : a ≠ []) : parseUnsigned a = some (digitsVal a) := by
  have ht : a.takeWhile isDigitChar = a := takeWhile_all a ha
  have hd : a.dropWhile isDigitChar = [] := dropWhile_all a ha
  simp only [parseUnsigned, ht, hd, List.head?_nil]
  rw [if_neg (by simp [hne])]
  simp [parseExp_nil, qpowInt_zero, digitsVal]

theorem parseUnsigned_digits_frac (a fd : JSString)
    (ha : ∀ c ∈ a, isDigitChar c = true)
    (hfd : ∀ c ∈ fd, isDigitChar c = true) (hfdne : fd ≠ []) :
    parseUnsigned (a ++ '.' :: fd) =
      some ((digitsVal a : ℚ) + (digitsVal fd : ℚ) / (10 : ℚ) ^ fd.length) := by
  have ht : (a ++ '.' :: fd).takeWhile isDigitChar = a :=
    takeWhile_append_not a ('.' :: fd) ha
      (by intro c hc; simp at hc; subst hc; exact not_digit_dot)
  have hd : (a ++ '.' :: fd).dropWhile isDigitChar = '.' :: fd :=
    dropWhile_append_not a ('.' :: fd) ha
      (by intro c hc; simp at hc; subst hc; exact not_digit_dot)
  have htf : fd.takeWhile isDigitChar = fd := takeWhile_all fd hfd
  have hdf : fd.dropWhile isDigitChar = [] := dropWhile_all fd hfd
  simp only [parseUnsigned, ht, hd, List.head?_cons, List.tail_cons, htf, hdf,
    if_true, reduceCtorEq]
  simp [List.isEmpty_iff, hfdne, parseExp_nil, qpowInt_zero]

theorem jsParseFloat_of_digit_head (b : JSString) (hb : ∀ c, b.head? = some c → isDigitChar c = true) :
    jsParseFloat b = parseUnsigned b := by
  have hdw : b.dropWhile isSpaceChar = b :=
    dropWhile_head_neg b (fun c hc => digit_not_space c (hb c hc))
  simp only [jsParseFloat, hdw]
  cases b with
  | nil => simp
  | cons c b =>
    have hc := hb c rfl
    rw [if_neg (by simp [digit_ne_minus c hc]), if_neg (by simp [digit_ne_plus c hc])]

theorem jsParseFloat_neg_head (b : JSString) :
    jsParseFloat ('-' :: b) = (parseUnsigned b).map (fun q => -q) := by
  have hdw : ('-' :: b).dropWhile isSpaceChar = '-' :: b :=
    dropWhile_head_neg _ (by intro c hc; simp at hc; subst hc; decide)
  simp only [jsParseFloat, hdw, List.head?_cons, List.tail_cons]
  simp

theorem head?_append_of_ne_nil (a b : JSString) (ha : a ≠ []) :
    (a ++ b).head? = a.head? := by
  cases a with
  | nil => exact absurd rfl ha
  | cons x xs => simp

theorem fmtUnsigned_head_digit (k n : Nat) :
    ∀ c, (fmtUnsigned k n).head? = some c → isDigitChar c = true := by
  intro c hc
  have hmem : ∀ x, (natDigits (n / 10 ^ k)).head? = some x → isDigitChar x = true := by
    intro x hx
    refine natDigits_all_digit (n / 10 ^ k) x ?_
    cases hnd : natDigits (n / 10 ^ k) with
    | nil => exact absurd hnd (natDigits_ne_nil _)
    | cons y ys =>
      rw [hnd] at hx
      simp at hx
      rw [← hx]
      exact List.mem_cons_self _ _
  by_cases hz : (reduceTrailing (n % 10 ^ k) k).1 = 0
  · rw [fmtUnsigned, if_pos hz] at hc
    exact hmem c hc
  · rw [fmtUnsigned, if_neg hz,
      head?_append_of_ne_nil _ _ (natDigits_ne_nil _)] at hc
    exact hmem c hc

theorem parseUnsigned_fmtUnsigned (k n : Nat) :
    parseUnsigned (fmtUnsigned k n) = some ((n : ℚ) / (10 : ℚ) ^ k) := by
  have hpow : (0 : ℕ) < 10 ^ k := by positivity
  obtain ⟨hk2, hmul, hlt⟩ := reduceTrailing_spec k (n % 10 ^ k)
  have hfpk : n % 10 ^ k < 10 ^ k := Nat.mod_lt _ hpow
  have hf' := hlt hfpk
  have hnval : n / 10 ^ k * 10 ^ k + n % 10 ^ k = n := by
    rw [Nat.mul_comm]
    exact Nat.div_add_mod n (10 ^ k)
  by_cases hz : (reduceTrailing (n % 10 ^ k) k).1 = 0
  · rw [fmtUnsigned, if_pos hz]
    rw [parseUnsigned_digits _ (natDigits_all_digit _) (natDigits_ne_nil _)]
    rw [digitsVal_natDigits]
    have hfp0 : n % 10 ^ k = 0 := by
      rw [← hmul, hz]
      simp
    have hn2 : n = n / 10 ^ k * 10 ^ k := by
      rw [hfp0, Nat.add_zero] at hnval
      exact hnval.symm
    rw [hn2]
    push_cast
    field_simp
  · rw [fmtUnsigned, if_neg hz]
    obtain ⟨d, hd⟩ : ∃ d, k = (reduceTrailing (n % 10 ^ k) k).2 + d :=
      ⟨k - (reduceTrailing (n % 10 ^ k) k).2, by omega⟩
    have hk'pos : 0 < (reduceTrailing (n % 10 ^ k) k).2 := by
      rcases Nat.eq_zero_or_pos (reduceTrailing (n % 10 ^ k) k).2 with h0 | h0
      · rw [h0, pow_zero] at hf'
        exact absurd (by omega : (reduceTrailing (n % 10 ^ k) k).1 = 0) hz
      · exact h0
    have hlen : (natDigits (reduceTrailing (n % 10 ^ k) k).1).length ≤
        (reduceTrailing (n % 10 ^ k) k).2 :=
      natDigits_length_le _ _ hk'pos hf'
    rw [parseUnsigned_digits_frac _ _ (natDigits_all_digit _)
      (by
        intro c hc
        rcases List.mem_append.1 hc with hc | hc
        · rw [List.eq_of_mem_replicate hc]; decide
        · exact natDigits_all_digit _ c hc)
      (by simp [natDigits_ne_nil])]
    rw [digitsVal_natDigits, digitsVal_replicate_zero, digitsVal_natDigits]
    have hlenfd : (List.replicate ((reduceTrailing (n % 10 ^ k) k).2 -
        (natDigits (reduceTrailing (n % 10 ^ k) k).1).length) '0' ++
        natDigits (reduceTrailing (n % 10 ^ k) k).1).length =
        (reduceTrailing (n % 10 ^ k) k).2 := by
      simp only [List.length_append, List.length_replicate]
      omega
    rw [hlenfd]
    congr 1
    have hd2 : (reduceTrailing (n % 10 ^ k) k).1 * 10 ^ d = n % 10 ^ k := by
      have hkd : k - (reduceTrailing (n % 10 ^ k) k).2 = d := by omega
      rw [← hkd]
      exact hmul
    have hn2 : n = n / 10 ^ k * (10 ^ (reduceTrailing (n % 10 ^ k) k).2 * 10 ^ d) +
        (reduceTrailing (n % 10 ^ k) k).1 * 10 ^ d := by
      rw [← pow_add, ← hd, hd2]
      exact hnval.symm
    have hnq : (n : ℚ) = (n / 10 ^ k : ℕ) *
        ((10 : ℚ) ^ (reduceTrailing (n % 10 ^ k) k).2 * (10 : ℚ) ^ d) +
        ((reduceTrailing (n % 10 ^ k) k).1 : ℚ) * (10 : ℚ) ^ d := by
      exact_mod_cast congrArg (Nat.cast : ℕ → ℚ) hn2
    have hpowsplit : (10 : ℚ) ^ k =
        (10 : ℚ) ^ (reduceTrailing (n % 10 ^ k) k).2 * (10 : ℚ) ^ d := by
      conv_lhs => rw [hd]
      rw [pow_add]
    rw [hpowsplit, hnq]
    field_simp
    ring

theorem jsParseFloat_fmtScaled (k : Nat) (m : ℤ) :
    jsParseFloat (fmtScaled k m) = some ((m : ℚ) / (10 : ℚ) ^ k) := by
  by_cases hm : m < 0
  · have hfmt : fmtScaled k m = '-' :: fmtUnsigned k m.natAbs := by
      simp [fmtScaled, hm]
    rw [hfmt, jsParseFloat_neg_head, parseUnsigned_fmtUnsigned]
    have habs : (m.natAbs : ℚ) = -(m : ℚ) := by
      calc (m.natAbs : ℚ) = ((m.natAbs : ℤ) : ℚ) := (Int.cast_natCast _).symm
        _ = ((-m : ℤ) : ℚ) := by rw [(by omega : (m.natAbs : ℤ) = -m)]
        _ = -(m : ℚ) := by push_cast; ring
    rw [Option.map_some', habs]
    congr 1
    ring
  · have hfmt : fmtScaled k m = fmtUnsigned k m.natAbs := by
      simp [fmtScaled, hm]
    rw [hfmt, jsParseFloat_of_digit_head _ (fmtUnsigned_head_digit k m.natAbs),
      parseUnsigned_fmtUnsigned]
    have habs : (m.natAbs : ℚ) = (m : ℚ) := by
      calc (m.natAbs : ℚ) = ((m.natAbs : ℤ) : ℚ) := (Int.cast_natCast _).symm
        _ = (m : ℚ) := by rw [(by omega : (m.natAbs : ℤ) = m)]
    rw [habs]

theorem jsParseFloat_fmtRounded (q : ℚ) :
    jsParseFloat (fmtRounded q) = some (roundNum q) := by
  rw [fmtRounded, jsParseFloat_fmtScaled]
  rfl

theorem hexVal_hexDigitChar (n : Nat) (h : n < 16) :
    hexVal (hexDigitChar n) = some n := by
  interval_cases n <;> decide

theorem decodeURIComponentAux_eq (f₁ f₂ : Nat) (s : JSString)
    (h₁ : s.length ≤ f₁) (h₂ : s.length ≤ f₂) :
    decodeURIComponentAux f₁ s = decodeURIComponentAux f₂ s := by
  induction f₁ generalizing f₂ s with
  | zero =>
    have : s = [] := List.length_eq_zero.1 (by omega)
    subst this
    cases f₂ <;> rfl
  | succ f ih =>
    cases f₂ with
    | zero =>
      have : s = [] := List.length_eq_zero.1 (by omega)
      subst this
      rfl
    | succ g =>
      cases s with
      | nil => rfl
      | cons c rest =>
        simp only [List.length_cons] at h₁ h₂
        show (if c = '%' then _ else c :: decodeURIComponentAux f rest) =
          (if c = '%' then _ else c :: decodeURIComponentAux g rest)
        by_cases hc : c = '%'
        · rw [if_pos hc, if_pos hc]
          cases rest with
          | nil =>
            show c :: decodeURIComponentAux f [] = c :: decodeURIComponentAux g []
            rw [ih g [] (by simp) (by simp)]
          | cons a tl =>
            cases tl with
            | nil =>
              show c :: decodeURIComponentAux f [a] = c :: decodeURIComponentAux g [a]
              rw [ih g [a] (by simp at h₁ ⊢; omega) (by simp at h₂ ⊢; omega)]
            | cons b r2 =>
              simp only [List.length_cons] at h₁ h₂
              show (match hexVal a, hexVal b with
                | some x, some y => Char.ofNat (16 * x + y) :: decodeURIComponentAux f r2
                | _, _ => c :: decodeURIComponentAux f (a :: b :: r2)) =
                (match hexVal a, hexVal b with
                | some x, some y => Char.ofNat (16 * x + y) :: decodeURIComponentAux g r2
                | _, _ => c :: decodeURIComponentAux g (a :: b :: r2))
              cases hexVal a with
              | none =>
                rw [ih g (a :: b :: r2) (by simp; omega) (by simp; omega)]
              | some x =>
                cases hexVal b with
                | none =>
                  rw [ih g (a :: b :: r2) (by simp; omega) (by simp; omega)]
                | some y =>
                  rw [ih g r2 (by omega) (by omega)]
        · rw [if_neg hc, if_neg hc, ih g rest (by omega) (by omega)]

theorem decodeURIComponent_cons_ne (c : Char) (r : JSString) (hc : c ≠ '%') :
    decodeURIComponent (c :: r) = c :: decodeURIComponent r := by
  show decodeURIComponentAux (r.length + 1) (c :: r) = _
  rw [show decodeURIComponentAux (r.length + 1) (c :: r) =
    (if c = '%' then _ else c :: decodeURIComponentAux r.length r) from rfl]
  rw [if_neg hc]
  rfl

theorem decodeURIComponent_percent (a b : Char) (r : JSString) (x y : Nat)
    (ha : hexVal a = some x) (hb : hexVal b = some y) :
    decodeURIComponent ('%' :: a :: b :: r) =
      Char.ofNat (16 * x + y) :: decodeURIComponent r := by
  show decodeURIComponentAux (r.length + 3) ('%' :: a :: b :: r) = _
  rw [show decodeURIComponentAux (r.length + 3) ('%' :: a :: b :: r) =
    (if ('%' : Char) = '%' then
      (match hexVal a, hexVal b with
        | some x, some y =>
          Char.ofNat (16 * x + y) :: decodeURIComponentAux (r.length + 2) r
        | _, _ =>
          '%' :: decodeURIComponentAux (r.length + 2) (a :: b :: r))
      else '%' :: decodeURIComponentAux (r.length + 2) (a :: b :: r)) from rfl]
  rw [if_pos rfl, ha, hb]
  rw [decodeURIComponentAux_eq (r.length + 2) r.length r (by omega) (by omega)]
  rfl

theorem unreserved_ne_percent (c : Char) (h : isUnreservedChar c = true) :
    c ≠ '%' := by
  rintro rfl
  exact absurd h (by decide)

theorem decodeURIComponent_encodeURIComponent (s : JSString)
    (h : ∀ c ∈ s, c.toNat < 128) :
    decodeURIComponent (encodeURIComponent s) = s := by
  induction s with
  | nil => rfl
  | cons c rest ih =>
    have hrest : decodeURIComponent (encodeURIComponent rest) = rest :=
      ih fun x hx => h x (by simp [hx])
    have hc : c.toNat < 128 := h c (by simp)
    show decodeURIComponent (encodeURIComponentChar c ++ encodeURIComponent rest) = _
    by_cases hu : isUnreservedChar c = true
    · rw [encodeURIComponentChar, if_pos hu]
      simp only [List.cons_append, List.nil_append]
      rw [decodeURIComponent_cons_ne c _ (unreserved_ne_percent c hu), hrest]
    · rw [encodeURIComponentChar, if_neg hu]
      simp only [List.cons_append, List.nil_append]
      rw [decodeURIComponent_percent _ _ _ (c.toNat / 16) (c.toNat % 16)
        (hexVal_hexDigitChar _ (by omega)) (hexVal_hexDigitChar _ (by omega))]
      rw [hrest]
      congr 1
      have hval : 16 * (c.toNat / 16) + c.toNat % 16 = c.toNat := by omega
      rw [hval]
      exact Char.ofNat_toNat c

theorem mem_encodeURIComponent (s : JSString) (hs : ∀ c ∈ s, c.toNat < 128)
    (c : Char) (hc : c ∈ encodeURIComponent s) :
    isUnreservedChar c = true ∨ c = '%' ∨ ∃ n, n < 16 ∧ c = hexDigitChar n := by
  induction s with
  | nil => simp [encodeURIComponent] at hc
  | cons x rest ih =>
    have hx128 : x.toNat < 128 := hs x (by simp)
    rw [show encodeURIComponent (x :: rest) =
      encodeURIComponentChar x ++ encodeURIComponent rest from rfl] at hc
    rcases List.mem_append.1 hc with hc | hc
    · rw [encodeURIComponentChar] at hc
      by_cases hu : isUnreservedChar x = true
      · rw [if_pos hu] at hc
        simp at hc
        subst hc
        exact Or.inl hu
      · rw [if_neg hu] at hc
        simp at hc
        rcases hc with rfl | rfl | rfl
        · exact Or.inr (Or.inl rfl)
        · exact Or.inr (Or.inr ⟨x.toNat / 16, by omega, rfl⟩)
        · exact Or.inr (Or.inr ⟨x.toNat % 16, by omega, rfl⟩)
    · exact ih (fun y hy => hs y (by simp [hy])) hc

theorem not_mem_encodeURIComponent (s : JSString) (hs : ∀ c ∈ s, c.toNat < 128)
    (c : Char) (h1 : isUnreservedChar c = false) (h2 : c ≠ '%')
    (h3 : ∀ n, n < 16 → c ≠ hexDigitChar n) :
    c ∉ encodeURIComponent s := by
  intro hc
  rcases mem_encodeURIComponent s hs c hc with h | h | ⟨n, hn, h⟩
  · rw [h1] at h
    cases h
  · exact h2 h
  · exact h3 n hn h

theorem slash_not_mem_encode (s : JSString) (hs : ∀ c ∈ s, c.toNat < 128) :
    '/' ∉ encodeURIComponent s :=
  not_mem_encodeURIComponent s hs _ (by decide) (by decide)
    (by intro n hn; interval_cases n <;> decide)

theorem hashch_not_mem_encode (s : JSString) (hs : ∀ c ∈ s, c.toNat < 128) :
    '#' ∉ encodeURIComponent s :=
  not_mem_encodeURIComponent s hs _ (by decide) (by decide)
    (by intro n hn; interval_cases n <;> decide)

theorem comma_not_mem_encode (s : JSString) (hs : ∀ c ∈ s, c.toNat < 128) :
    ',' ∉ encodeURIComponent s :=
  not_mem_encodeURIComponent s hs _ (by decide) (by decide)
    (by intro n hn; interval_cases n <;> decide)

theorem colon_not_mem_encode (s : JSString) (hs : ∀ c ∈ s, c.toNat < 128) :
    ':' ∉ encodeURIComponent s :=
  not_mem_encodeURIComponent s hs _ (by decide) (by decide)
    (by intro n hn; interval_cases n <;> decide)

theorem encode_ne_nil (s : JSString) (h : s ≠ []) : encodeURIComponent s ≠ [] := by
  cases s with
  | nil => exact absurd rfl h
  | cons c rest =>
    show encodeURIComponentChar c ++ encodeURIComponent rest ≠ []
    rw [encodeURIComponentChar]
    by_cases hu : isUnreservedChar c = true
    · rw [if_pos hu]; simp
    · rw [if_neg hu]; simp

/-! ## String-splitting and scanning lemmas -/

theorem splitOnChar_not_mem (c : Char) (s : JSString) (h : c ∉ s) :
    splitOnChar c s = [s] := by
  induction s with
  | nil => rfl
  | cons x xs ih =>
    have hx : x ≠ c := fun hc => h (by simp [hc])
    have hxs : c ∉ xs := fun hc => h (by simp [hc])
    rw [show splitOnChar c (x :: xs) =
      (if x = c then [] :: splitOnChar c xs
       else match splitOnChar c xs with
       | [] => [[x]]
       | h :: t => (x :: h) :: t) from rfl]
    rw [if_neg hx, ih hxs]

theorem splitOnChar_append (c : Char) (a b : JSString) (h : c ∉ a) :
    splitOnChar c (a ++ c :: b) = a :: splitOnChar c b := by
  induction a with
  | nil =>
    show splitOnChar c (c :: b) = [] :: splitOnChar c b
    rw [show splitOnChar c (c :: b) =
      (if c = c then [] :: splitOnChar c b
       else match splitOnChar c b with
       | [] => [[c]]
       | h :: t => (c :: h) :: t) from rfl]
    rw [if_pos rfl]
  | cons x xs ih =>
    have hx : x ≠ c := fun hc => h (by simp [hc])
    have hxs : c ∉ xs := fun hc => h (by simp [hc])
    show splitOnChar c (x :: (xs ++ c :: b)) = _
    rw [show splitOnChar c (x :: (xs ++ c :: b)) =
      (if x = c then [] :: splitOnChar c (xs ++ c :: b)
       else match splitOnChar c (xs ++ c :: b) with
       | [] => [[x]]
       | h :: t => (x :: h) :: t) from rfl]
    rw [if_neg hx, ih hxs]

theorem splitOnChar_joinSep (c : Char) (l : List JSString)
    (h : ∀ x ∈ l, c ∉ x) (hne : l ≠ []) :
    splitOnChar c (joinSep c l) = l := by
  induction l with
  | nil => exact absurd rfl hne
  | cons x t ih =>
    cases t with
    | nil =>
      show splitOnChar c x = [x]
      exact splitOnChar_not_mem c x (h x (by simp))
    | cons y t2 =>
      show splitOnChar c (x ++ c :: joinSep c (y :: t2)) = _
      rw [splitOnChar_append c x _ (h x (by simp))]
      rw [ih (fun z hz => h z (by simp at hz ⊢; tauto)) (by simp)]

theorem indexesOfChar_append (c : Char) (a b : JSString) :
    indexesOfChar c (a ++ b) =
      indexesOfChar c a ++ (indexesOfChar c b).map (· + a.length) := by
  induction a with
  | nil => simp [indexesOfChar]
  | cons x xs ih =>
    show indexesOfChar c (x :: (xs ++ b)) = _
    rw [show indexesOfChar c (x :: (xs ++ b)) =
      (if x = c then 0 :: (indexesOfChar c (xs ++ b)).map (· + 1)
       else (indexesOfChar c (xs ++ b)).map (· + 1)) from rfl]
    rw [show indexesOfChar c (x :: xs) =
      (if x = c then 0 :: (indexesOfChar c xs).map (· + 1)
       else (indexesOfChar c xs).map (· + 1)) from rfl]
    by_cases hx : x = c
    · rw [if_pos hx, if_pos hx, ih]
      simp only [List.map_append, List.map_map, List.cons_append, List.length_cons]
      congr 2
    · rw [if_neg hx, if_neg hx, ih]
      simp only [List.map_append, List.map_map, List.length_cons]
      congr 1

theorem indexesOfChar_not_mem (c : Char) (s : JSString) (h : c ∉ s) :
    indexesOfChar c s = [] := by
  induction s with
  | nil => rfl
  | cons x xs ih =>
    have hx : x ≠ c := fun hc => h (by simp [hc])
    have hxs : c ∉ xs := fun hc => h (by simp [hc])
    rw [show indexesOfChar c (x :: xs) =
      (if x = c then 0 :: (indexesOfChar c xs).map (· + 1)
       else (indexesOfChar c xs).map (· + 1)) from rfl]
    rw [if_neg hx, ih hxs]
    rfl

theorem indexesOfChar_std_segment (r t f : JSString)
    (hr : '/' ∉ r) (ht : '/' ∉ t) (hf : '/' ∉ f) :
    indexesOfChar '/' (r ++ '/' :: (t ++ '/' :: f)) =
      [r.length, r.length + 1 + t.length] := by
  rw [indexesOfChar_append, indexesOfChar_not_mem '/' r hr]
  rw [show indexesOfChar '/' ('/' :: (t ++ '/' :: f)) =
    (if ('/' : Char) = '/' then 0 :: (indexesOfChar '/' (t ++ '/' :: f)).map (· + 1)
     else (indexesOfChar '/' (t ++ '/' :: f)).map (· + 1)) from rfl]
  rw [if_pos rfl]
  rw [indexesOfChar_append, indexesOfChar_not_mem '/' t ht]
  rw [show indexesOfChar '/' ('/' :: f) =
    (if ('/' : Char) = '/' then 0 :: (indexesOfChar '/' f).map (· + 1)
     else (indexesOfChar '/' f).map (· + 1)) from rfl]
  rw [if_pos rfl, indexesOfChar_not_mem '/' f hf]
  simp
  omega

theorem transformPartAt_std (r t f : JSString) :
    transformPartAt (r ++ '/' :: (t ++ '/' :: f)) r.length (r.length + 1 + t.length) = t := by
  unfold transformPartAt
  have h1 : (r ++ '/' :: (t ++ '/' :: f)).drop (r.length + 1) = t ++ '/' :: f := by
    rw [show (r ++ '/' :: (t ++ '/' :: f) : JSString) =
      (r ++ ['/']) ++ (t ++ '/' :: f) from by simp]
    rw [show r.length + 1 = (r ++ ['/']).length from by simp]
    exact List.drop_left _ _
  rw [h1, show r.length + 1 + t.length - (r.length + 1) = t.length from by omega]
  exact List.take_left t ('/' :: f)

theorem scanTransform_std (r t f : JSString)
    (hr : '/' ∉ r) (ht : '/' ∉ t) (hf : '/' ∉ f) (hrne : r ≠ [])
    (hlen : (splitOnChar ',' t).length = 4)
    (hall : (splitOnChar ',' t).all (fun x => (jsParseFloat x).isSome) = true) :
    scanTransform (r ++ '/' :: (t ++ '/' :: f)) = some (r, t, f) := by
  have hidx := indexesOfChar_std_segment r t f hr ht hf
  have hvalid : validBlockAt (r ++ '/' :: (t ++ '/' :: f))
      (indexesOfChar '/' (r ++ '/' :: (t ++ '/' :: f))) 0 = true := by
    rw [hidx]
    show (match some r.length, some (r.length + 1 + t.length) with
      | some p, some q =>
        decide ((splitOnChar ',' (transformPartAt (r ++ '/' :: (t ++ '/' :: f)) p q)).length = 4) &&
          (splitOnChar ',' (transformPartAt (r ++ '/' :: (t ++ '/' :: f)) p q)).all
            (fun x => (jsParseFloat x).isSome)
      | _, _ => false) = true
    simp only
    rw [transformPartAt_std r t f]
    simp [hlen, hall]
  unfold scanTransform
  rw [hidx]
  rw [if_neg (by simp)]
  have hscan : scanFromIdx (r ++ '/' :: (t ++ '/' :: f)) [r.length, r.length + 1 + t.length] 0 =
      some ((r ++ '/' :: (t ++ '/' :: f)).take r.length,
        transformPartAt (r ++ '/' :: (t ++ '/' :: f)) r.length (r.length + 1 + t.length),
        (r ++ '/' :: (t ++ '/' :: f)).drop (r.length + 1 + t.length + 1)) := by
    show (if validBlockAt (r ++ '/' :: (t ++ '/' :: f)) [r.length, r.length + 1 + t.length] 0 then _
      else none) = _
    rw [if_pos (by rw [← hidx]; exact hvalid)]
    rfl
  rw [show [r.length, r.length + 1 + t.length].length - 2 = 0 from rfl, hscan]
  rw [transformPartAt_std r t f]
  rw [show (r ++ '/' :: (t ++ '/' :: f)).take r.length = r from List.take_left r _]
  have hdrop : (r ++ '/' :: (t ++ '/' :: f)).drop (r.length + 1 + t.length + 1) = f := by
    rw [show (r ++ '/' :: (t ++ '/' :: f) : JSString) =
      (r ++ '/' :: (t ++ ['/'])) ++ f from by simp]
    rw [show r.length + 1 + t.length + 1 = (r ++ '/' :: (t ++ ['/'])).length from by
      simp
      omega]
    exact List.drop_left _ _
  rw [hdrop]
  show (if r.isEmpty = true then none else some (r, t, f)) = some (r, t, f)
  rw [if_neg (by simp [hrne])]

theorem scanTransform_std_invalid (r t f : JSString)
    (hr : '/' ∉ r) (ht : '/' ∉ t) (hf : '/' ∉ f)
    (hbad : ¬((splitOnChar ',' t).length = 4 ∧
      (splitOnChar ',' t).all (fun x => (jsParseFloat x).isSome) = true)) :
    scanTransform (r ++ '/' :: (t ++ '/' :: f)) = none := by
  have hidx := indexesOfChar_std_segment r t f hr ht hf
  have hvalid : validBlockAt (r ++ '/' :: (t ++ '/' :: f))
      [r.length, r.length + 1 + t.length] 0 = false := by
    show (match some r.length, some (r.length + 1 + t.length) with
      | some p, some q =>
        decide ((splitOnChar ',' (transformPartAt (r ++ '/' :: (t ++ '/' :: f)) p q)).length = 4) &&
          (splitOnChar ',' (transformPartAt (r ++ '/' :: (t ++ '/' :: f)) p q)).all
            (fun x => (jsParseFloat x).isSome)
      | _, _ => false) = false
    simp only
    rw [transformPartAt_std r t f]
    rcases Decidable.not_and_iff_or_not.1 hbad with h | h
    · simp [h]
    · simp only [Bool.and_eq_false_iff]
      right
      exact Bool.not_eq_true _ ▸ (by simpa using h)
  unfold scanTransform
  rw [hidx]
  rw [if_neg (by simp)]
  rw [show [r.length, r.length + 1 + t.length].length - 2 = 0 from rfl]
  show (match (if validBlockAt (r ++ '/' :: (t ++ '/' :: f))
      [r.length, r.length + 1 + t.length] 0 then _ else none :
      Option (JSString × JSString × JSString)) with
    | some (r', t', f') => if r'.isEmpty then none else some (r', t', f')
    | none => none) = none
  rw [if_neg (by rw [hvalid]; simp)]

/-! ## Properties of the decode step -/

theorem applyCanvasX_fields (d : DecodeState) (o : Option ℚ) :
    (applyCanvasX d o).objects = d.objects ∧ (applyCanvasX d o).seen = d.seen ∧
    (applyCanvasX d o).nextId = d.nextId := by
  cases o <;> exact ⟨rfl, rfl, rfl⟩

theorem applyCanvasY_fields (d : DecodeState) (o : Option ℚ) :
    (applyCanvasY d o).objects = d.objects ∧ (applyCanvasY d o).seen = d.seen ∧
    (applyCanvasY d o).nextId = d.nextId := by
  cases o <;> exact ⟨rfl, rfl, rfl⟩

theorem applyCanvasZ_fields (d : DecodeState) (o : Option ℚ) :
    (applyCanvasZ d o).objects = d.objects ∧ (applyCanvasZ d o).seen = d.seen ∧
    (applyCanvasZ d o).nextId = d.nextId := by
  cases o <;> exact ⟨rfl, rfl, rfl⟩

theorem applyCanvasNums_objects (d : DecodeState) (t : JSString) :
    (applyCanvasNums d t).objects = d.objects ∧
    (applyCanvasNums d t).seen = d.seen ∧
    (applyCanvasNums d t).nextId = d.nextId := by
  unfold applyCanvasNums
  obtain ⟨hx1, hx2, hx3⟩ := applyCanvasX_fields d (numAt (parsedNums t) 0)
  obtain ⟨hy1, hy2, hy3⟩ := applyCanvasY_fields (applyCanvasX d (numAt (parsedNums t) 0))
    (numAt (parsedNums t) 1)
  obtain ⟨hz1, hz2, hz3⟩ := applyCanvasZ_fields
    (applyCanvasY (applyCanvasX d (numAt (parsedNums t) 0)) (numAt (parsedNums t) 1))
    (numAt (parsedNums t) 2)
  exact ⟨by rw [hz1, hy1, hx1], by rw [hz2, hy2, hx2], by rw [hz3, hy3, hx3]⟩

theorem pushWith_fields (d : DecodeState) (mk : JSString → CanvasObject)
    (o : Option JSString) :
    (pushWith d mk o).seen = d.seen ∧ (pushWith d mk o).viewportX = d.viewportX ∧
    (pushWith d mk o).viewportY = d.viewportY ∧ (pushWith d mk o).zoom = d.zoom := by
  cases o <;> exact ⟨rfl, rfl, rfl, rfl⟩

theorem pushObject_state (store eph : Store) (d : DecodeState)
    (ref f : JSString) (tx ty0 ts tr : ℚ) :
    (pushObject store eph d ref f tx ty0 ts tr).seen = d.seen ∧
    (pushObject store eph d ref f tx ty0 ts tr).viewportX = d.viewportX ∧
    (pushObject store eph d ref f tx ty0 ts tr).viewportY = d.viewportY ∧
    (pushObject store eph d ref f tx ty0 ts tr).zoom = d.zoom := by
  unfold pushObject
  exact pushWith_fields _ _ _

theorem stepNums_fields (store eph : Store) (d : DecodeState) (ref f : JSString)
    (nums : List (Option ℚ)) :
    (stepNums store eph d ref f nums).seen = d.seen ∧
    (stepNums store eph d ref f nums).viewportX = d.viewportX ∧
    (stepNums store eph d ref f nums).viewportY = d.viewportY ∧
    (stepNums store eph d ref f nums).zoom = d.zoom := by
  unfold stepNums
  cases numAt nums 0 <;> cases numAt nums 1 <;> cases numAt nums 2 <;>
    cases numAt nums 3 <;>
    first
      | exact ⟨rfl, rfl, rfl, rfl⟩
      | exact pushObject_state store eph _ _ _ _ _ _ _

theorem stepSegment_scan_none (store eph : Store) (d : DecodeState) (seg : JSString)
    (h : scanTransform seg = none) : stepSegment store eph d seg = d := by
  unfold stepSegment
  rw [h]

theorem stepSegment_scan_some (store eph : Store) (d : DecodeState) (seg : JSString)
    (r t f : JSString) (h : scanTransform seg = some (r, t, f)) :
    stepSegment store eph d seg = stepParsed store eph d r t f := by
  unfold stepSegment
  rw [h]

theorem stepSegment_seen_hit (store eph : Store) (d : DecodeState) (seg : JSString)
    (r t f : JSString) (h : scanTransform seg = some (r, t, f))
    (hmem : segKey r t f ∈ d.seen) : stepSegment store eph d seg = d := by
  rw [stepSegment_scan_some store eph d seg r t f h, stepParsed, if_pos hmem]

theorem stepSegment_seen_eq (store eph : Store) (d : DecodeState) (seg : JSString)
    (r t f : JSString) (h : scanTransform seg = some (r, t, f))
    (hmem : segKey r t f ∉ d.seen) :
    (stepSegment store eph d seg).seen = segKey r t f :: d.seen := by
  rw [stepSegment_scan_some store eph d seg r t f h, stepParsed, if_neg hmem]
  by_cases hc : decodeURIComponent r = strCanvas
  · rw [if_pos hc]
    exact (applyCanvasNums_objects _ t).2.1
  · rw [if_neg hc]
    exact (stepNums_fields store eph _ _ _ _).1

theorem stepSegment_seen_mono (store eph : Store) (d : DecodeState) (seg : JSString) :
    d.seen ⊆ (stepSegment store eph d seg).seen := by
  cases hscan : scanTransform seg with
  | none =>
    rw [stepSegment_scan_none store eph d seg hscan]
    exact fun x hx => hx
  | some v =>
    obtain ⟨r, t, f⟩ := v
    by_cases hmem : segKey r t f ∈ d.seen
    · rw [stepSegment_seen_hit store eph d seg r t f hscan hmem]
      exact fun x hx => hx
    · rw [stepSegment_seen_eq store eph d seg r t f hscan hmem]
      exact List.subset_cons_self _ _

theorem stepSegment_mem_seen (store eph : Store) (d : DecodeState) (seg : JSString)
    (r t f : JSString) (h : scanTransform seg = some (r, t, f)) :
    segKey r t f ∈ (stepSegment store eph d seg).seen := by
  by_cases hmem : segKey r t f ∈ d.seen
  · rw [stepSegment_seen_hit store eph d seg r t f h hmem]
    exact hmem
  · rw [stepSegment_seen_eq store eph d seg r t f h hmem]
    simp

theorem foldl_seen_mono (store eph : Store) (l : List JSString) (d : DecodeState) :
    d.seen ⊆ (l.foldl (stepSegment store eph) d).seen := by
  induction l generalizing d with
  | nil => exact fun x hx => hx
  | cons s rest ih =>
    exact fun x hx => ih (stepSegment store eph d s) (stepSegment_seen_mono store eph d s hx)

/-! ## Character classes of formatted numbers and serialized segments -/

theorem fmtUnsigned_chars (k n : Nat) :
    ∀ c ∈ fmtUnsigned k n, isDigitChar c = true ∨ c = '.' := by
  intro c hc
  unfold fmtUnsigned at hc
  by_cases hz : (reduceTrailing (n % 10 ^ k) k).1 = 0
  · rw [if_pos hz] at hc
    exact Or.inl (natDigits_all_digit _ c hc)
  · rw [if_neg hz] at hc
    rcases List.mem_append.1 hc with hc | hc
    · exact Or.inl (natDigits_all_digit _ c hc)
    · rcases List.mem_cons.1 hc with rfl | hc
      · exact Or.inr rfl
      · rcases List.mem_append.1 hc with hc | hc
        · rw [List.eq_of_mem_replicate hc]
          exact Or.inl (by decide)
        · exact Or.inl (natDigits_all_digit _ c hc)

theorem fmtScaled_chars (k : Nat) (m : ℤ) :
    ∀ c ∈ fmtScaled k m, isDigitChar c = true ∨ c = '.' ∨ c = '-' := by
  intro c hc
  unfold fmtScaled at hc
  rcases List.mem_append.1 hc with hc | hc
  · by_cases hm : m < 0
    · rw [if_pos hm] at hc
      simp at hc
      exact Or.inr (Or.inr hc)
    · rw [if_neg hm] at hc
      simp at hc
  · rcases fmtUnsigned_chars k m.natAbs c hc with h | h
    · exact Or.inl h
    · exact Or.inr (Or.inl h)

theorem not_mem_fmtScaled (k : Nat) (m : ℤ) (c : Char)
    (h1 : isDigitChar c = false) (h2 : c ≠ '.') (h3 : c ≠ '-') :
    c ∉ fmtScaled k m := by
  intro hc
  rcases fmtScaled_chars k m c hc with h | h | h
  · rw [h1] at h
    cases h
  · exact h2 h
  · exact h3 h

theorem slash_not_mem_fmtRounded (q : ℚ) : '/' ∉ fmtRounded q :=
  not_mem_fmtScaled 3 (jsRound3 q) '/' (by decide) (by decide) (by decide)

theorem hashch_not_mem_fmtRounded (q : ℚ) : '#' ∉ fmtRounded q :=
  not_mem_fmtScaled 3 (jsRound3 q) '#' (by decide) (by decide) (by decide)

theorem comma_not_mem_fmtRounded (q : ℚ) : ',' ∉ fmtRounded q :=
  not_mem_fmtScaled 3 (jsRound3 q) ',' (by decide) (by decide) (by decide)

theorem colon_not_mem_fmtRounded (q : ℚ) : ':' ∉ fmtRounded q :=
  not_mem_fmtScaled 3 (jsRound3 q) ':' (by decide) (by decide) (by decide)

theorem pipe_not_mem_fmtRounded (q : ℚ) : '|' ∉ fmtRounded q :=
  not_mem_fmtScaled 3 (jsRound3 q) '|' (by decide) (by decide) (by decide)

theorem serializeCanvasSegment_ne_nil (st : CanvasState) :
    serializeCanvasSegment st ≠ [] := by
  unfold serializeCanvasSegment
  simp [strCanvas]

theorem serializeStateToHash_ne_nil (st : CanvasState) :
    serializeStateToHash st ≠ [] := by
  unfold serializeStateToHash
  cases hl : (st.objects.filter (fun o => !o.isFrameObject && !o.isEmptyFrame)).map
      serializeObjectSegment with
  | nil =>
    show joinSep '#' [serializeCanvasSegment st] ≠ []
    exact serializeCanvasSegment_ne_nil st
  | cons y t =>
    show serializeCanvasSegment st ++ '#' :: joinSep '#' (y :: t) ≠ []
    simp

theorem hashch_not_mem_canvasSegment (st : CanvasState) :
    '#' ∉ serializeCanvasSegment st := by
  unfold serializeCanvasSegment
  intro hc
  rcases List.mem_append.1 hc with hc | hc
  · revert hc
    decide
  · rcases List.mem_cons.1 hc with hc | hc
    · cases hc
    · rcases List.mem_append.1 hc with hc | hc
      · exact hashch_not_mem_fmtRounded _ hc
      · rcases List.mem_cons.1 hc with hc | hc
        · cases hc
        · rcases List.mem_append.1 hc with hc | hc
          · exact hashch_not_mem_fmtRounded _ hc
          · rcases List.mem_cons.1 hc with hc | hc
            · cases hc
            · exact hashch_not_mem_fmtRounded _ hc

/-! ## Shared helper lemmas about content resolution -/

theorem jsStartsWith_iff (s p : JSString) :
    jsStartsWith s p = true ↔ ∃ u, s = p ++ u := by
  unfold jsStartsWith
  rw [decide_eq_true_eq]
  constructor
  · intro h
    refine ⟨s.drop p.length, ?_⟩
    conv_lhs => rw [← List.take_append_drop p.length s]
    rw [h]
  · rintro ⟨u, rfl⟩
    exact List.take_left p u

theorem http_not_token (ref : JSString)
    (h : jsStartsWith ref httpPfx = true ∨ jsStartsWith ref httpsPfx = true) :
    jsStartsWith ref tokenPfx = false := by
  rcases h with h | h <;>
  · obtain ⟨u, rfl⟩ := (jsStartsWith_iff _ _).1 h
    rw [Bool.eq_false_iff]
    intro hc
    obtain ⟨v, hv⟩ := (jsStartsWith_iff _ _).1 hc
    exact absurd hv (by simp [httpPfx, httpsPfx, tokenPfx])

/-- Shared by C9 and the round-trip claim: with no shadowing file-keyed entry
in durable storage, an absolute `http(s)` URL resolves to itself (iframes
additionally need the URL to be `new URL`-valid). -/
theorem resolveContent_absolute_url (store eph : Store) (ref : JSString) (ty : FlagVal)
    (hhttp : jsStartsWith ref httpPfx = true ∨ jsStartsWith ref httpsPfx = true)
    (hfile : storeLookup store (makeFileKey ref) = none)
    (hiframe : ty = FlagVal.str strIframe → isValidUrl ref = true) :
    resolveContent store eph ref ty = some ref := by
  unfold resolveContent
  rw [if_neg (by rw [http_not_token ref hhttp]; simp)]
  rw [hfile]
  unfold resolveUnstored
  by_cases hty : ty = FlagVal.str strIframe
  · rw [if_pos hty, if_pos (hiframe hty)]
  · rw [if_neg hty, if_pos (by rcases hhttp with h | h <;> simp [h])]

/-! ## Claim C8: empty fragment clears to the default scene -/

/-- C8: an external hash change carrying an empty fragment (the empty string
or a bare `'#'`) resets the scene: no objects, pan `(0,0)`, zoom `1`. -/
theorem c8_empty_fragment_default_scene (st : CanvasState)
    (h : st.locationHash = [] ∨ st.locationHash = ['#']) :
    (onHashChange st).objects = [] ∧ (onHashChange st).viewportX = 0 ∧
    (onHashChange st).viewportY = 0 ∧ (onHashChange st).zoom = 1 := by
  unfold onHashChange
  rw [if_pos h]
  exact ⟨rfl, rfl, rfl, rfl⟩

theorem c8_witness :
    (initState.locationHash = [] ∨ initState.locationHash = ['#']) ∧
    (onHashChange initState).objects = [] ∧ (onHashChange initState).viewportX = 0 ∧
    (onHashChange initState).viewportY = 0 ∧ (onHashChange initState).zoom = 1 :=
  ⟨Or.inl rfl, c8_empty_fragment_default_scene initState (Or.inl rfl)⟩

/-! ## Claim C9 (corrected): URL resolution and the file-key lookup -/

/-- C9 as amended: an absolute `http(s)` URL resolves to itself *provided*
durable storage has no entry under its file key (`'file-data-' + ref`); the
in-memory token map never influences a non-`token:` reference (it is
universally quantified here). -/
theorem c9_resolve_url_amended (store eph : Store) (ref : JSString) (ty : FlagVal)
    (hhttp : jsStartsWith ref httpPfx = true ∨ jsStartsWith ref httpsPfx = true)
    (hfile : storeLookup store (makeFileKey ref) = none)
    (hiframe : ty = FlagVal.str strIframe → isValidUrl ref = true) :
    resolveContent store eph ref ty = some ref :=
  resolveContent_absolute_url store eph ref ty hhttp hfile hiframe

/-- C9 counterexample: with a durable entry stored under the file key of the
URL, `resolveContent` performs the storage lookup first and returns the
stored payload, not the URL — refuting the claim that no storage lookup
influences the result. -/
theorem c9_storage_lookup_counterexample :
    resolveContent [(makeFileKey c9Url, c9Blob)] [] c9Url (FlagVal.str strImage) =
      some c9Blob ∧ c9Blob ≠ c9Url := by
  constructor
  · decide
  · decide

theorem c9_witness :
    (jsStartsWith c9Url httpPfx = true ∨ jsStartsWith c9Url httpsPfx = true) ∧
    storeLookup [] (makeFileKey c9Url) = none ∧
    resolveContent [] [] c9Url (FlagVal.str strImage) = some c9Url :=
  ⟨Or.inr (by decide), rfl,
    c9_resolve_url_amended [] [] c9Url (FlagVal.str strImage)
      (Or.inr (by decide)) rfl (by intro h; cases h)⟩

/-! ## Claim C6 (code_bug): canvas-segment zoom clamping is unreachable -/

/-- C6: the decoder's slash scan requires at least two `'/'` and a 4-float
block, so the serializer's own `canvas/<x>,<y>,<zoom>` segment (one slash,
three numbers) is dropped and the `ref === 'canvas'` clamp branch never runs:
decoding `#canvas/0,0,999` (or `0`) leaves the zoom at its current value `1`
instead of clamping to `maxZoom` (`minZoom`).  The third conjunct shows the
clamp branch itself is alive for a hand-written segment with two slashes and
four numbers, supporting that the 3-number dead path is a slip. -/
theorem c6_canvas_zoom_not_clamped :
    (applyHashState initState (("#canvas/0,0,999").data)).zoom = 1 ∧
    (applyHashState initState (("#canvas/0,0,0").data)).zoom = 1 ∧
    (applyHashState initState (("#canvas/0,0,999,9/x").data)).zoom = maxZoom := by
  refine ⟨?_, ?_, ?_⟩ <;> with_unfolding_all decide

/-! ## Claim C10: the encoded string always starts with the canvas segment -/

/-- C10: `serializeStateToHash` is never empty; its first `'#'`-segment is
always the viewport segment `canvas/<panX>,<panY>,<zoom>`; a scene with no
objects serializes to exactly that single segment. -/
theorem c10_canvas_segment_first (st : CanvasState) :
    serializeStateToHash st ≠ [] ∧
    (splitOnChar '#' (serializeStateToHash st)).head? =
      some (serializeCanvasSegment st) ∧
    (st.objects = [] → serializeStateToHash st = serializeCanvasSegment st) := by
  refine ⟨serializeStateToHash_ne_nil st, ?_, ?_⟩
  · unfold serializeStateToHash
    cases hl : (st.objects.filter (fun o => !o.isFrameObject && !o.isEmptyFrame)).map
        serializeObjectSegment with
    | nil =>
      show (splitOnChar '#' (serializeCanvasSegment st)).head? = _
      rw [splitOnChar_not_mem '#' _ (hashch_not_mem_canvasSegment st)]
      rfl
    | cons y t =>
      show (splitOnChar '#' (serializeCanvasSegment st ++ '#' :: joinSep '#' (y :: t))).head? = _
      rw [splitOnChar_append '#' _ _ (hashch_not_mem_canvasSegment st)]
      rfl
  · intro h
    unfold serializeStateToHash
    rw [h]
    rfl

/-! ## Claim C7: echo suppression after a controller write -/

theorem flushHashWrite_scene (st : CanvasState) :
    (flushHashWrite st).objects = st.objects ∧
    (flushHashWrite st).viewportX = st.viewportX ∧
    (flushHashWrite st).viewportY = st.viewportY ∧
    (flushHashWrite st).zoom = st.zoom := by
  simp only [flushHashWrite]
  split <;> (try split) <;> exact ⟨rfl, rfl, rfl, rfl⟩

theorem serializeStateToHash_flush (st : CanvasState) :
    serializeStateToHash (flushHashWrite st) = serializeStateToHash st := by
  obtain ⟨h1, h2, h3, h4⟩ := flushHashWrite_scene st
  unfold serializeStateToHash serializeCanvasSegment
  rw [h1, h2, h3, h4]

theorem flushHashWrite_written (st : CanvasState)
    (hw : '#' :: serializeStateToHash st ≠ st.lastSerializedHash) :
    (flushHashWrite st).locationHash = '#' :: serializeStateToHash st ∧
    (flushHashWrite st).lastSerializedHash = '#' :: serializeStateToHash st := by
  simp only [flushHashWrite]
  rw [if_neg (serializeStateToHash_ne_nil st)]
  rw [if_pos hw]
  exact ⟨rfl, rfl⟩

/-- C7: after the controller writes value `V = '#' + serialize(state)` to the
addressable location, the hash-change notification carrying exactly `V` is
recognized as an echo and produces no state mutation at all (the whole
component state, in particular objects, viewport and zoom, is unchanged). -/
theorem c7_echo_suppression (st : CanvasState)
    (hw : '#' :: serializeStateToHash st ≠ st.lastSerializedHash) :
    onHashChange (flushHashWrite st) = flushHashWrite st := by
  obtain ⟨hloc, hlast⟩ := flushHashWrite_written st hw
  have hser := serializeStateToHash_flush st
  simp only [onHashChange]
  rw [hloc, hser]
  rw [if_neg (by
    rintro (h | h)
    · cases h
    · simp at h
      exact serializeStateToHash_ne_nil st h)]
  rw [if_neg (serializeStateToHash_ne_nil st)]
  rw [if_pos (Or.inl rfl)]

theorem c7_witness :
    ('#' :: serializeStateToHash c7State ≠ c7State.lastSerializedHash) ∧
    onHashChange (flushHashWrite c7State) = flushHashWrite c7State :=
  ⟨by with_unfolding_all decide,
    c7_echo_suppression c7State (by with_unfolding_all decide)⟩

theorem c10_witness :
    serializeStateToHash initState ≠ [] ∧
    (splitOnChar '#' (serializeStateToHash initState)).head? =
      some (serializeCanvasSegment initState) ∧
    serializeStateToHash initState = serializeCanvasSegment initState :=
  ⟨(c10_canvas_segment_first initState).1, (c10_canvas_segment_first initState).2.1,
    (c10_canvas_segment_first initState).2.2 rfl⟩

theorem joinSep_ne_nil (c : Char) (x : JSString) (t : List JSString) (hx : x ≠ []) :
    joinSep c (x :: t) ≠ [] := by
  cases t with
  | nil => exact hx
  | cons y t2 =>
    show x ++ c :: joinSep c (y :: t2) ≠ []
    simp

theorem filter_nonempty_eq_self (l : List JSString) (h : ∀ x ∈ l, x ≠ []) :
    l.filter (fun x => !x.isEmpty) = l := by
  induction l with
  | nil => rfl
  | cons x t ih =>
    rw [List.filter_cons, if_pos (by simp [List.isEmpty_iff]; exact h x (by simp))]
    rw [ih fun y hy => h y (by simp [hy])]

theorem applyHashState_mkFragment (st : CanvasState) (l : List JSString)
    (hne : l ≠ []) (hwf : ∀ x ∈ l, x ≠ [] ∧ '#' ∉ x) :
    applyHashState st (mkFragment l) =
      { st with
        viewportX := (decodeSegs st l).viewportX,
        viewportY := (decodeSegs st l).viewportY,
        zoom := (decodeSegs st l).zoom,
        objects := (decodeSegs st l).objects,
        selectedObjectId := none,
        lastSerializedHash := mkFragment l,
        sessionLastHash := some (mkFragment l),
        initialFitScheduled := st.initialFitScheduled ||
          (!st.restoredFromHash && !(decodeSegs st l).objects.isEmpty),
        nextId := (decodeSegs st l).nextId } := by
  obtain ⟨x, t, rfl⟩ : ∃ x t, l = x :: t := by
    cases l with
    | nil => exact absurd rfl hne
    | cons x t => exact ⟨x, t, rfl⟩
  have hjoin : joinSep '#' (x :: t) ≠ [] := joinSep_ne_nil '#' x t (hwf x (by simp)).1
  unfold applyHashState
  rw [if_neg (by
    show ¬(mkFragment (x :: t)).length ≤ 1
    unfold mkFragment
    simp only [List.length_cons]
    have : joinSep '#' (x :: t) ≠ [] := hjoin
    cases hj : joinSep '#' (x :: t) with
    | nil => exact absurd hj this
    | cons a b => simp [hj])]
  have hdrop : (mkFragment (x :: t)).drop 1 = joinSep '#' (x :: t) := rfl
  rw [hdrop]
  rw [splitOnChar_joinSep '#' (x :: t) (fun z hz => (hwf z hz).2) (by simp)]
  rw [filter_nonempty_eq_self (x :: t) (fun z hz => (hwf z hz).1)]
  rw [if_neg (by simp)]
  have hmark : ensureHashMark (mkFragment (x :: t)) = mkFragment (x :: t) := by
    unfold ensureHashMark mkFragment
    rw [if_pos (by rw [jsStartsWith_iff]; exact ⟨joinSep '#' (x :: t), rfl⟩)]
  rw [hmark]
  rfl

theorem foldl_step_drop_none (store eph : Store) (d : DecodeState)
    (l1 l2 : List JSString) (s : JSString) (h : scanTransform s = none) :
    (l1 ++ s :: l2).foldl (stepSegment store eph) d =
      (l1 ++ l2).foldl (stepSegment store eph) d := by
  rw [List.foldl_append, List.foldl_append, List.foldl_cons]
  rw [stepSegment_scan_none store eph _ s h]

theorem foldl_step_absorb (store eph : Store) (d : DecodeState)
    (l1 mid l2 : List JSString) (s t : JSString)
    (hst : scanTransform t = scanTransform s) :
    (l1 ++ s :: (mid ++ t :: l2)).foldl (stepSegment store eph) d =
      (l1 ++ s :: (mid ++ l2)).foldl (stepSegment store eph) d := by
  rw [List.foldl_append, List.foldl_append, List.foldl_cons, List.foldl_cons,
    List.foldl_append, List.foldl_append, List.foldl_cons]
  cases hscan : scanTransform s with
  | none =>
    rw [hscan] at hst
    rw [stepSegment_scan_none store eph _ t hst]
  | some v =>
    obtain ⟨r, tt, ff⟩ := v
    rw [hscan] at hst
    rw [stepSegment_seen_hit store eph _ t r tt ff hst
      (foldl_seen_mono store eph mid _
        (stepSegment_mem_seen store eph _ s r tt ff hscan))]

/-! ## Claim C5: a truncated transform block drops only its own segment -/

/-- C5: in a fragment of well-formed segments, a segment whose transform
block was truncated to 3 comma-separated fields (so that no slash pair
encloses 4 parseable floats) contributes nothing: the decode result — object
list, viewport and zoom — is exactly that of the fragment with the segment
removed. -/
theorem c5_truncated_segment_like_absent (st : CanvasState)
    (l1 l2 : List JSString) (r t f : JSString)
    (hwf : ∀ x ∈ l1 ++ l2, x ≠ [] ∧ '#' ∉ x)
    (hne : l1 ++ l2 ≠ [])
    (hr : '/' ∉ r) (ht : '/' ∉ t) (hf : '/' ∉ f)
    (hhr : '#' ∉ r) (hht : '#' ∉ t) (hhf : '#' ∉ f)
    (hcount : (splitOnChar ',' t).length = 3) :
    (applyHashState st (mkFragment (l1 ++ (r ++ '/' :: (t ++ '/' :: f)) :: l2))).objects =
      (applyHashState st (mkFragment (l1 ++ l2))).objects ∧
    (applyHashState st (mkFragment (l1 ++ (r ++ '/' :: (t ++ '/' :: f)) :: l2))).viewportX =
      (applyHashState st (mkFragment (l1 ++ l2))).viewportX ∧
    (applyHashState st (mkFragment (l1 ++ (r ++ '/' :: (t ++ '/' :: f)) :: l2))).viewportY =
      (applyHashState st (mkFragment (l1 ++ l2))).viewportY ∧
    (applyHashState st (mkFragment (l1 ++ (r ++ '/' :: (t ++ '/' :: f)) :: l2))).zoom =
      (applyHashState st (mkFragment (l1 ++ l2))).zoom := by
  have hscan : scanTransform (r ++ '/' :: (t ++ '/' :: f)) = none :=
    scanTransform_std_invalid r t f hr ht hf (by
      rintro ⟨h4, _⟩
      rw [hcount] at h4
      cases h4)
  have hseg : (r ++ '/' :: (t ++ '/' :: f)) ≠ [] ∧ '#' ∉ (r ++ '/' :: (t ++ '/' :: f)) := by
    constructor
    · simp
    · intro hc
      rcases List.mem_append.1 hc with hc | hc
      · exact hhr hc
      · rcases List.mem_cons.1 hc with hc | hc
        · cases hc
        · rcases List.mem_append.1 hc with hc | hc
          · exact hht hc
          · rcases List.mem_cons.1 hc with hc | hc
            · cases hc
            · exact hhf hc
  have hwf1 : ∀ x ∈ l1 ++ (r ++ '/' :: (t ++ '/' :: f)) :: l2, x ≠ [] ∧ '#' ∉ x := by
    intro x hx
    rcases List.mem_append.1 hx with hx | hx
    · exact hwf x (List.mem_append.2 (Or.inl hx))
    · rcases List.mem_cons.1 hx with rfl | hx
      · exact hseg
      · exact hwf x (List.mem_append.2 (Or.inr hx))
  rw [applyHashState_mkFragment st _ (by simp) hwf1,
    applyHashState_mkFragment st _ hne hwf]
  have hfold : decodeSegs st (l1 ++ (r ++ '/' :: (t ++ '/' :: f)) :: l2) =
      decodeSegs st (l1 ++ l2) :=
    foldl_step_drop_none _ _ _ l1 l2 _ hscan
  rw [hfold]
  exact ⟨rfl, rfl, rfl, rfl⟩

theorem c5_witness :
    (applyHashState initState
        (mkFragment ([cvSeg, okSeg] ++ (badRef ++ '/' :: (badT ++ '/' :: badFlags)) :: []))).objects =
      (applyHashState initState (mkFragment ([cvSeg, okSeg] ++ []))).objects ∧
    (applyHashState initState
        (mkFragment ([cvSeg, okSeg] ++ (badRef ++ '/' :: (badT ++ '/' :: badFlags)) :: []))).zoom =
      (applyHashState initState (mkFragment ([cvSeg, okSeg] ++ []))).zoom ∧
    (applyHashState initState
        (mkFragment ([cvSeg, okSeg] ++ (badRef ++ '/' :: (badT ++ '/' :: badFlags)) :: []))).objects.length = 1 := by
  obtain ⟨h1, _, _, h4⟩ := c5_truncated_segment_like_absent initState [cvSeg, okSeg] []
    badRef badT badFlags (by decide) (by decide) (by decide) (by decide) (by decide)
    (by decide) (by decide) (by decide) (by decide)
  refine ⟨h1, h4, ?_⟩
  rw [h1]
  with_unfolding_all decide

/-! ## Claim C4: duplicate segments collapse to the first occurrence -/

/-- C4: within one decode, a later segment whose scanned
`(encodedRef, transformPart, flagsPart)` triple — and hence composite dedup
key — coincides with an earlier segment's contributes nothing: the fragment
decodes exactly as if the later duplicate were absent.  In particular a
literally repeated segment (`t = s`) decodes to a single object. -/
theorem c4_duplicate_segment_collapsed (st : CanvasState)
    (l1 mid l2 : List JSString) (s t : JSString)
    (hwf : ∀ x ∈ l1 ++ s :: (mid ++ t :: l2), x ≠ [] ∧ '#' ∉ x)
    (hkey : scanTransform t = scanTransform s) :
    (applyHashState st (mkFragment (l1 ++ s :: (mid ++ t :: l2)))).objects =
      (applyHashState st (mkFragment (l1 ++ s :: (mid ++ l2)))).objects ∧
    (applyHashState st (mkFragment (l1 ++ s :: (mid ++ t :: l2)))).viewportX =
      (applyHashState st (mkFragment (l1 ++ s :: (mid ++ l2)))).viewportX ∧
    (applyHashState st (mkFragment (l1 ++ s :: (mid ++ t :: l2)))).viewportY =
      (applyHashState st (mkFragment (l1 ++ s :: (mid ++ l2)))).viewportY ∧
    (applyHashState st (mkFragment (l1 ++ s :: (mid ++ t :: l2)))).zoom =
      (applyHashState st (mkFragment (l1 ++ s :: (mid ++ l2)))).zoom := by
  have hwf2 : ∀ x ∈ l1 ++ s :: (mid ++ l2), x ≠ [] ∧ '#' ∉ x := by
    intro x hx
    apply hwf
    rcases List.mem_append.1 hx with hx | hx
    · exact List.mem_append.2 (Or.inl hx)
    · rcases List.mem_cons.1 hx with rfl | hx
      · exact List.mem_append.2 (Or.inr (List.mem_cons.2 (Or.inl rfl)))
      · rcases List.mem_append.1 hx with hx | hx
        · exact List.mem_append.2 (Or.inr (List.mem_cons.2 (Or.inr
            (List.mem_append.2 (Or.inl hx)))))
        · exact List.mem_append.2 (Or.inr (List.mem_cons.2 (Or.inr
            (List.mem_append.2 (Or.inr (List.mem_cons.2 (Or.inr hx)))))))
  rw [applyHashState_mkFragment st _ (by simp) hwf,
    applyHashState_mkFragment st _ (by simp) hwf2]
  have hfold : decodeSegs st (l1 ++ s :: (mid ++ t :: l2)) =
      decodeSegs st (l1 ++ s :: (mid ++ l2)) :=
    foldl_step_absorb _ _ _ l1 mid l2 s t hkey
  rw [hfold]
  exact ⟨rfl, rfl, rfl, rfl⟩

theorem c4_witness :
    (applyHashState initState (mkFragment ([cvSeg] ++ okSeg :: ([] ++ okSeg :: [])))).objects =
      (applyHashState initState (mkFragment ([cvSeg] ++ okSeg :: ([] ++ [])))).objects ∧
    (applyHashState initState (mkFragment ([cvSeg] ++ okSeg :: ([] ++ okSeg :: [])))).objects.length = 1 := by
  obtain ⟨h1, _, _, _⟩ := c4_duplicate_segment_collapsed initState [cvSeg] [] [] okSeg okSeg
    (by decide) rfl
  refine ⟨h1, ?_⟩
  rw [h1]
  with_unfolding_all decide

theorem scanFromIdx_zero (s : JSString) (idx : List Nat) :
    scanFromIdx s idx 0 = if validBlockAt s idx 0 then blockOut s idx 0 else none := rfl

theorem scanFromIdx_succ (s : JSString) (idx : List Nat) (i : Nat) :
    scanFromIdx s idx (i + 1) =
      if validBlockAt s idx (i + 1) then blockOut s idx (i + 1)
      else scanFromIdx s idx i := rfl

theorem validBlockAt_oob (s : JSString) (idx : List Nat) (i : Nat)
    (h : idx.length ≤ i + 1) : validBlockAt s idx i = false := by
  have h2 : idx[i + 1]? = none := by
    rw [List.getElem?_eq_none_iff]
    exact h
  unfold validBlockAt
  rw [h2]
  cases idx[i]? <;> rfl

theorem validBlockAt_lt_len (s : JSString) (idx : List Nat) (i : Nat)
    (h : validBlockAt s idx i = true) : i + 2 ≤ idx.length := by
  by_contra hc
  rw [validBlockAt_oob s idx i (by omega)] at h
  exact Bool.false_ne_true h

theorem validBlockAt_blockOut (s : JSString) (idx : List Nat) (i : Nat)
    (h : validBlockAt s idx i = true) :
    ∃ p q, idx[i]? = some p ∧ idx[i + 1]? = some q ∧
      blockOut s idx i = some (s.take p, transformPartAt s p q, s.drop (q + 1)) := by
  unfold validBlockAt at h
  rcases hp : idx[i]? with _ | p
  · rw [hp] at h
    cases hq : idx[i + 1]? <;> rw [hq] at h <;> exact absurd h (by simp)
  · rcases hq : idx[i + 1]? with _ | q
    · rw [hp, hq] at h
      exact absurd h (by simp)
    · refine ⟨p, q, rfl, rfl, ?_⟩
      unfold blockOut
      rw [hp, hq]

theorem scanFromIdx_spec (s : JSString) (idx : List Nat) (n : Nat)
    (out : JSString × JSString × JSString) :
    scanFromIdx s idx n = some out ↔
      ∃ i, i ≤ n ∧ validBlockAt s idx i = true ∧
        (∀ j, i < j → j ≤ n → validBlockAt s idx j = false) ∧
        blockOut s idx i = some out := by
  induction n with
  | zero =>
    rw [scanFromIdx_zero]
    by_cases h : validBlockAt s idx 0 = true
    · rw [if_pos h]
      constructor
      · intro hout
        exact ⟨0, Nat.le_refl 0, h, fun j hj hj' => absurd hj (by omega), hout⟩
      · rintro ⟨i, hi, hv, -, hb⟩
        rw [Nat.le_zero] at hi
        subst hi
        exact hb
    · rw [if_neg h]
      constructor
      · intro hout
        exact absurd hout (by simp)
      · rintro ⟨i, hi, hv, -, -⟩
        rw [Nat.le_zero] at hi
        subst hi
        exact absurd hv h
  | succ n ih =>
    rw [scanFromIdx_succ]
    by_cases h : validBlockAt s idx (n + 1) = true
    · rw [if_pos h]
      constructor
      · intro hout
        exact ⟨n + 1, Nat.le_refl _, h, fun j hj hj' => absurd hj (by omega), hout⟩
      · rintro ⟨i, hi, hv, hmax, hb⟩
        rcases Nat.lt_or_ge i (n + 1) with hlt | hge
        · rw [hmax (n + 1) hlt (Nat.le_refl _)] at h
          exact absurd h (by simp)
        · have : i = n + 1 := Nat.le_antisymm hi hge
          subst this
          exact hb
    · rw [if_neg h]
      have hf : validBlockAt s idx (n + 1) = false := by
        cases hc : validBlockAt s idx (n + 1)
        · rfl
        · exact absurd hc h
      rw [ih]
      constructor
      · rintro ⟨i, hi, hv, hmax, hb⟩
        refine ⟨i, Nat.le_succ_of_le hi, hv, ?_, hb⟩
        intro j hj hj'
        rcases Nat.eq_or_lt_of_le hj' with rfl | hlt
        · exact hf
        · exact hmax j hj (by omega)
      · rintro ⟨i, hi, hv, hmax, hb⟩
        have hi' : i ≤ n := by
          rcases Nat.eq_or_lt_of_le hi with rfl | h'
          · rw [hv] at hf
            exact absurd hf (by simp)
          · omega
        exact ⟨i, hi', hv, fun j hj hj' => hmax j hj (Nat.le_succ_of_le hj'), hb⟩

theorem scanFromIdx_none (s : JSString) (idx : List Nat) (n : Nat)
    (h : ∀ i, i ≤ n → validBlockAt s idx i = false) :
    scanFromIdx s idx n = none := by
  induction n with
  | zero =>
    rw [scanFromIdx_zero, if_neg (by simp [h 0 (Nat.le_refl 0)])]
  | succ n ih =>
    rw [scanFromIdx_succ, if_neg (by simp [h (n + 1) (Nat.le_refl _)])]
    exact ih (fun i hi => h i (Nat.le_succ_of_le hi))

theorem scanTransform_unfold (s : JSString) :
    scanTransform s =
      (if (indexesOfChar '/' s).length < 2 then none
       else
        match scanFromIdx s (indexesOfChar '/' s) ((indexesOfChar '/' s).length - 2) with
        | some (r, t, f) => if r.isEmpty then none else some (r, t, f)
        | none => none) := rfl

theorem scanTransform_spec (s r t f : JSString) :
    scanTransform s = some (r, t, f) ↔
      2 ≤ (indexesOfChar '/' s).length ∧ r ≠ [] ∧
      ∃ i, validBlockAt s (indexesOfChar '/' s) i = true ∧
        (∀ j, i < j → validBlockAt s (indexesOfChar '/' s) j = false) ∧
        blockOut s (indexesOfChar '/' s) i = some (r, t, f) := by
  rw [scanTransform_unfold]
  by_cases hlen : (indexesOfChar '/' s).length < 2
  · rw [if_pos hlen]
    constructor
    · intro h
      exact absurd h (by simp)
    · rintro ⟨h2, -⟩
      omega
  · rw [if_neg hlen]
    have hlen' : 2 ≤ (indexesOfChar '/' s).length := by omega
    constructor
    · intro h
      rcases hsc : scanFromIdx s (indexesOfChar '/' s) ((indexesOfChar '/' s).length - 2)
          with _ | ⟨r', t', f'⟩
      · rw [hsc] at h
        exact absurd h (by simp)
      · rw [hsc] at h
        have h' : (if r'.isEmpty = true then none else some (r', t', f')) = some (r, t, f) := h
        by_cases hre : r'.isEmpty = true
        · rw [if_pos hre] at h'
          exact absurd h' (by simp)
        · rw [if_neg hre] at h'
          have heq : r' = r ∧ t' = t ∧ f' = f := by
            have := Option.some.inj h'
            exact ⟨congrArg Prod.fst this,
              congrArg Prod.fst (congrArg Prod.snd this),
              congrArg Prod.snd (congrArg Prod.snd this)⟩
          obtain ⟨rfl, rfl, rfl⟩ := heq
          obtain ⟨i, hi, hv, hmax, hb⟩ := (scanFromIdx_spec s _ _ _).mp hsc
          refine ⟨hlen', by simpa using hre, i, hv, ?_, hb⟩
          intro j hj
          rcases Nat.lt_or_ge j ((indexesOfChar '/' s).length - 1) with hlt | hge
          · exact hmax j hj (by omega)
          · exact validBlockAt_oob s _ j (by omega)
    · rintro ⟨-, hr, i, hv, hmax, hb⟩
      have hbound := validBlockAt_lt_len s _ i hv
      have hsc : scanFromIdx s (indexesOfChar '/' s) ((indexesOfChar '/' s).length - 2) =
          some (r, t, f) := by
        rw [scanFromIdx_spec]
        exact ⟨i, by omega, hv, fun j hj hj' => hmax j hj, hb⟩
      rw [hsc]
      show (if r.isEmpty = true then none else some (r, t, f)) = some (r, t, f)
      rw [if_neg (by simpa using hr)]

/-- C2: (i) the transform scan succeeds with triple `(r, t, f)` exactly when
the segment has at least two slashes, `r` is nonempty, and some slash pair `i`
encloses a valid 4-float block while every pair to its right does not — with
`r` the text before slash `i`, `t` the block between slashes `i` and `i+1`,
and `f` the text after slash `i+1`; (ii) a segment in which no slash pair
encloses a valid block contributes nothing to the decode; (iii) concretely, a
raw-URL reference with an embedded `/` together with an `og:https://...` flag
still splits into the correct triple. -/
theorem c2_rightmost_block_scan (s r t f : JSString) :
    (scanTransform s = some (r, t, f) ↔
      2 ≤ (indexesOfChar '/' s).length ∧ r ≠ [] ∧
      ∃ i, validBlockAt s (indexesOfChar '/' s) i = true ∧
        (∀ j, i < j → validBlockAt s (indexesOfChar '/' s) j = false) ∧
        blockOut s (indexesOfChar '/' s) i = some (r, t, f)) ∧
    ((∀ i, validBlockAt s (indexesOfChar '/' s) i = false) →
      ∀ store eph d, stepSegment store eph d s = d) ∧
    scanTransform exSegment =
      some (("https://a.b/c").data, ("1,2,3,4").data,
        ("type:iframe,ratio:1,og:https://x.y/z.jpg").data) := by
  refine ⟨scanTransform_spec s r t f, ?_, by with_unfolding_all decide⟩
  intro hall store eph d
  apply stepSegment_scan_none
  rw [scanTransform_unfold]
  by_cases hlen : (indexesOfChar '/' s).length < 2
  · rw [if_pos hlen]
  · rw [if_neg hlen]
    rw [scanFromIdx_none s _ _ (fun i _ => hall i)]

theorem c2_witness :
    (scanTransform exSegment =
      some (("https://a.b/c").data, ("1,2,3,4").data,
        ("type:iframe,ratio:1,og:https://x.y/z.jpg").data)) ∧
    (∀ store eph d, stepSegment store eph d (("abc").data) = d) := by
  refine ⟨(c2_rightmost_block_scan [] [] [] []).2.2, ?_⟩
  apply (c2_rightmost_block_scan (("abc").data) [] [] []).2.1
  intro i
  have hidx : indexesOfChar '/' (("abc").data) = [] := by decide
  rw [hidx]
  exact validBlockAt_oob _ _ _ (by simp)

theorem pushObject_unresolved_image (store eph : Store) (d : DecodeState)
    (ref f : JSString) (tx ty0 ts tr : ℚ)
    (hun : contentTruthy (resolveContent store eph ref (flagType f)) = false)
    (hty : flagType f = FlagVal.str strImage) :
    ∃ o, (pushObject store eph d ref f tx ty0 ts tr).objects = d.objects ++ [o] ∧
      o.content = transparentPixel := by
  rw [flagType] at hty
  rw [flagType, hty] at hun
  simp only [pushObject, hty, hun]
  simp only [Bool.false_eq_true, if_false, if_pos rfl, pushWith]
  exact ⟨_, rfl, rfl⟩

theorem pushObject_unresolved_iframe (store eph : Store) (d : DecodeState)
    (ref f : JSString) (tx ty0 ts tr : ℚ)
    (hun : contentTruthy (resolveContent store eph ref (flagType f)) = false)
    (hty : flagType f = FlagVal.str strIframe) :
    (pushObject store eph d ref f tx ty0 ts tr).objects = d.objects := by
  rw [flagType] at hty
  rw [flagType, hty] at hun
  simp only [pushObject, hty, hun]
  rw [if_neg (by with_unfolding_all decide : ¬(FlagVal.str strIframe = FlagVal.str strImage))]
  simp only [Bool.false_eq_true, if_false, pushWith]

/-- C3: consider a decode-loop iteration on a segment whose scan yields the
triple `(r, t, f)`, not previously seen, not the `canvas` segment, with all
four transform numbers parseable, and whose decoded reference resolves to
nothing truthy (no storage hit, no token hit, not an acceptable URL).  If the
`type` flag is `image`, exactly one object is appended and its content is the
(nonempty) 1×1 transparent-pixel data URL; if the `type` flag is `iframe`,
the object list is left exactly as it was. -/
theorem c3_unresolvable_image_iframe (store eph : Store) (d : DecodeState)
    (seg r t f : JSString)
    (hscan : scanTransform seg = some (r, t, f))
    (hseen : segKey r t f ∉ d.seen)
    (hcanvas : decodeURIComponent r ≠ strCanvas)
    (tx ty0 ts tr : ℚ)
    (h0 : numAt (parsedNums t) 0 = some tx)
    (h1 : numAt (parsedNums t) 1 = some ty0)
    (h2 : numAt (parsedNums t) 2 = some ts)
    (h3 : numAt (parsedNums t) 3 = some tr)
    (hun : contentTruthy
      (resolveContent store eph (decodeURIComponent r) (flagType f)) = false) :
    (flagType f = FlagVal.str strImage →
      ∃ o, (stepSegment store eph d seg).objects = d.objects ++ [o] ∧
        o.content = transparentPixel) ∧
    (flagType f = FlagVal.str strIframe →
      (stepSegment store eph d seg).objects = d.objects) ∧
    transparentPixel ≠ [] := by
  rw [stepSegment_scan_some store eph d seg r t f hscan]
  rw [stepParsed, if_neg hseen, if_neg hcanvas]
  have hobj : ∀ d' : DecodeState,
      (stepNums store eph d' (decodeURIComponent r) f (parsedNums t)) =
        pushObject store eph d' (decodeURIComponent r) f tx ty0 ts tr := by
    intro d'
    rw [stepNums, h0, h1, h2, h3]
  rw [hobj]
  refine ⟨?_, ?_, by decide⟩
  · intro hty
    exact pushObject_unresolved_image store eph _ _ _ tx ty0 ts tr hun hty
  · intro hty
    exact pushObject_unresolved_iframe store eph _ _ _ tx ty0 ts tr hun hty

theorem c3_witness :
    (∃ o, (stepSegment [] [] emptyDecode (("foo/1,2,3,4/type:image").data)).objects =
        [] ++ [o] ∧ o.content = transparentPixel) ∧
    (stepSegment [] [] emptyDecode (("foo/1,2,3,4/type:iframe").data)).objects = [] := by
  constructor
  · exact (c3_unresolvable_image_iframe [] [] emptyDecode
      (("foo/1,2,3,4/type:image").data) (("foo").data) (("1,2,3,4").data)
      (("type:image").data) (by with_unfolding_all decide) (by decide) (by decide)
      1 2 3 4 (by with_unfolding_all decide) (by with_unfolding_all decide)
      (by with_unfolding_all decide) (by with_unfolding_all decide)
      (by with_unfolding_all decide)).1 (by with_unfolding_all decide)
  · exact (c3_unresolvable_image_iframe [] [] emptyDecode
      (("foo/1,2,3,4/type:iframe").data) (("foo").data) (("1,2,3,4").data)
      (("type:iframe").data) (by with_unfolding_all decide) (by decide) (by decide)
      1 2 3 4 (by with_unfolding_all decide) (by with_unfolding_all decide)
      (by with_unfolding_all decide) (by with_unfolding_all decide)
      (by with_unfolding_all decide)).2.1 (by with_unfolding_all decide)

theorem numOrStr_num (v : JSString) (q : ℚ) (h : jsParseFloat v = some q) :
    numOrStr v = FlagVal.num q := by
  rw [numOrStr, h]

theorem numOrStr_str (v : JSString) (h : jsParseFloat v = none) :
    numOrStr v = FlagVal.str v := by
  rw [numOrStr, h]

theorem indexOfChar_split (c : Char) (a b : JSString) (ha : c ∉ a) :
    indexOfChar c (a ++ c :: b) = some a.length := by
  induction a with
  | nil =>
    show (if c = c then some 0 else (indexOfChar c b).map (· + 1)) = some 0
    rw [if_pos rfl]
  | cons x xs ih =>
    have hx : x ≠ c := fun hc => ha (by simp [hc])
    have hxs : c ∉ xs := fun hc => ha (by simp [hc])
    show (if x = c then some 0 else (indexOfChar c (xs ++ c :: b)).map (· + 1)) = _
    rw [if_neg hx, ih hxs]
    rfl

theorem take_append_sep (c : Char) (a b : JSString) :
    (a ++ c :: b).take a.length = a :=
  List.take_left a (c :: b)

theorem drop_append_sep (c : Char) (a b : JSString) :
    (a ++ c :: b).drop (a.length + 1) = b := by
  rw [show (a ++ c :: b : JSString) = (a ++ [c]) ++ b from by simp,
    show a.length + 1 = (a ++ [c]).length from by simp]
  exact List.drop_left _ _

theorem parseFlagEntry_std (m : List (JSString × FlagVal)) (k v : JSString)
    (hk : ':' ∉ k) (hne : k ≠ []) :
    parseFlagEntry m (k ++ ':' :: v) = mapSet m k (numOrStr v) := by
  obtain ⟨a, as, rfl⟩ : ∃ a as, k = a :: as := by
    cases k with
    | nil => exact absurd rfl hne
    | cons a as => exact ⟨a, as, rfl⟩
  have hidx : indexOfChar ':' ((a :: as) ++ ':' :: v) = some (as.length + 1) :=
    indexOfChar_split ':' (a :: as) v hk
  unfold parseFlagEntry
  rw [hidx]
  show mapSet m (((a :: as) ++ ':' :: v).take (as.length + 1))
    (match jsParseFloat (((a :: as) ++ ':' :: v).drop (as.length + 1 + 1)) with
     | some q => FlagVal.num q
     | none => FlagVal.str (((a :: as) ++ ':' :: v).drop (as.length + 1 + 1))) = _
  rw [show as.length + 1 = (a :: as : JSString).length from rfl,
    take_append_sep, drop_append_sep]
  rfl

theorem mapSet_cons_ne (k1 : JSString) (v1 : FlagVal)
    (rest : List (JSString × FlagVal)) (k : JSString) (v : FlagVal)
    (h : ¬(k1 = k)) :
    mapSet ((k1, v1) :: rest) k v = (k1, v1) :: mapSet rest k v := by
  unfold mapSet
  rw [if_neg h]
  cases rest <;> rfl

theorem getFlag_cons_eq (k1 : JSString) (v1 : FlagVal)
    (rest : List (JSString × FlagVal)) (k : JSString) (h : k1 = k) :
    getFlag ((k1, v1) :: rest) k = some v1 := by
  unfold getFlag
  rw [if_pos h]

theorem getFlag_cons_ne (k1 : JSString) (v1 : FlagVal)
    (rest : List (JSString × FlagVal)) (k : JSString) (h : ¬(k1 = k)) :
    getFlag ((k1, v1) :: rest) k = getFlag rest k := by
  unfold getFlag
  rw [if_neg h]
  cases rest <;> rfl

theorem jsParseFloat_head_nonnum (c : Char) (rest : JSString)
    (h1 : isSpaceChar c = false) (h2 : c ≠ '-') (h3 : c ≠ '+')
    (h4 : isDigitChar c = false) (h5 : c ≠ '.') :
    jsParseFloat (c :: rest) = none := by
  have hdw : (c :: rest).dropWhile isSpaceChar = c :: rest :=
    List.dropWhile_cons_of_neg (by simp [h1])
  simp only [jsParseFloat, hdw, List.head?_cons]
  rw [if_neg (by simp [h2]), if_neg (by simp [h3])]
  have hip : (c :: rest).takeWhile isDigitChar = [] :=
    List.takeWhile_cons_of_neg (by simp [h4])
  have hr1 : (c :: rest).dropWhile isDigitChar = c :: rest :=
    List.dropWhile_cons_of_neg (by simp [h4])
  simp [parseUnsigned, hip, hr1, h5]

theorem jsParseFloat_encode_http (g : JSString)
    (h : jsStartsWith g httpPfx = true ∨ jsStartsWith g httpsPfx = true) :
    jsParseFloat (encodeURIComponent g) = none := by
  have hh : ∃ tl, g = 'h' :: tl := by
    rcases h with h | h <;> obtain ⟨u, rfl⟩ := (jsStartsWith_iff _ _).1 h
    · exact ⟨("ttp://").data ++ u, rfl⟩
    · exact ⟨("ttps://").data ++ u, rfl⟩
  obtain ⟨tl, rfl⟩ := hh
  rw [show encodeURIComponent ('h' :: tl) = 'h' :: encodeURIComponent tl from rfl]
  exact jsParseFloat_head_nonnum 'h' _ (by decide) (by decide) (by decide)
    (by decide) (by decide)

theorem pipe_not_mem_encode (s : JSString) (hs : ∀ c ∈ s, c.toNat < 128) :
    '|' ∉ encodeURIComponent s :=
  not_mem_encodeURIComponent s hs _ (by decide) (by decide)
    (by intro n hn; interval_cases n <;> decide)

theorem append_sep_inj (c : Char) (a b a' b' : JSString) (ha : c ∉ a) (ha' : c ∉ a')
    (h : a ++ c :: b = a' ++ c :: b') : a = a' ∧ b = b' := by
  induction a generalizing a' with
  | nil =>
    cases a' with
    | nil => simpa using h
    | cons y ys =>
      simp only [List.nil_append, List.cons_append, List.cons.injEq] at h
      exact absurd (by simp [← h.1] : c ∈ y :: ys) ha'
  | cons x xs ih =>
    cases a' with
    | nil =>
      simp only [List.nil_append, List.cons_append, List.cons.injEq] at h
      exact absurd (by simp [h.1] : c ∈ x :: xs) ha
    | cons y ys =>
      simp only [List.cons_append, List.cons.injEq] at h
      obtain ⟨rfl, h2⟩ := h
      obtain ⟨rfl, rfl⟩ := ih ys (fun hc => ha (by simp [hc]))
        (fun hc => ha' (by simp [hc])) h2
      exact ⟨rfl, rfl⟩

theorem segKey_inj (r t f r' t' f' : JSString)
    (hr : '|' ∉ r) (hr' : '|' ∉ r') (ht : '|' ∉ t) (ht' : '|' ∉ t')
    (h : segKey r t f = segKey r' t' f') : r = r' ∧ t = t' ∧ f = f' := by
  have hk : ∀ (x y z : JSString), segKey x y z = x ++ '|' :: (y ++ '|' :: z) := by
    intro x y z
    simp [segKey]
  rw [hk, hk] at h
  obtain ⟨rfl, h2⟩ := append_sep_inj '|' r _ r' _ hr hr' h
  obtain ⟨rfl, rfl⟩ := append_sep_inj '|' t _ t' _ ht ht' h2
  exact ⟨rfl, rfl, rfl⟩

theorem fmtRounded_chars (q : ℚ) :
    ∀ c ∈ fmtRounded q, isDigitChar c = true ∨ c = '.' ∨ c = '-' :=
  fmtScaled_chars 3 (jsRound3 q)

theorem transform_chars (o : CanvasObject) :
    ∀ c ∈ objTransformString o,
      isDigitChar c = true ∨ c = '.' ∨ c = '-' ∨ c = ',' := by
  intro c hc
  unfold objTransformString at hc
  rcases List.mem_append.1 hc with hc | hc
  · rcases fmtRounded_chars _ c hc with h | h | h
    · exact Or.inl h
    · exact Or.inr (Or.inl h)
    · exact Or.inr (Or.inr (Or.inl h))
  · rcases List.mem_cons.1 hc with rfl | hc
    · exact Or.inr (Or.inr (Or.inr rfl))
    · rcases List.mem_append.1 hc with hc | hc
      · rcases fmtRounded_chars _ c hc with h | h | h
        · exact Or.inl h
        · exact Or.inr (Or.inl h)
        · exact Or.inr (Or.inr (Or.inl h))
      · rcases List.mem_cons.1 hc with rfl | hc
        · exact Or.inr (Or.inr (Or.inr rfl))
        · rcases List.mem_append.1 hc with hc | hc
          · rcases fmtRounded_chars _ c hc with h | h | h
            · exact Or.inl h
            · exact Or.inr (Or.inl h)
            · exact Or.inr (Or.inr (Or.inl h))
          · rcases List.mem_cons.1 hc with rfl | hc
            · exact Or.inr (Or.inr (Or.inr rfl))
            · rcases fmtRounded_chars _ c hc with h | h | h
              · exact Or.inl h
              · exact Or.inr (Or.inl h)
              · exact Or.inr (Or.inr (Or.inl h))

theorem not_mem_transform (o : CanvasObject) (c : Char)
    (h1 : isDigitChar c = false) (h2 : c ≠ '.') (h3 : c ≠ '-') (h4 : c ≠ ',') :
    c ∉ objTransformString o := by
  intro hc
  rcases transform_chars o c hc with h | h | h | h
  · rw [h1] at h
    cases h
  · exact h2 h
  · exact h3 h
  · exact h4 h

theorem splitComma_transform (o : CanvasObject) :
    splitOnChar ',' (objTransformString o) =
      [fmtRounded o.x, fmtRounded o.y, fmtRounded (o.width / baseSize),
        fmtRounded o.rotation] := by
  unfold objTransformString
  rw [splitOnChar_append _ _ _ (comma_not_mem_fmtRounded _),
    splitOnChar_append _ _ _ (comma_not_mem_fmtRounded _),
    splitOnChar_append _ _ _ (comma_not_mem_fmtRounded _),
    splitOnChar_not_mem _ _ (comma_not_mem_fmtRounded _)]

theorem indexesOfChar_single_slash (a b : JSString) (ha : '/' ∉ a) (hb : '/' ∉ b) :
    indexesOfChar '/' (a ++ '/' :: b) = [a.length] := by
  rw [indexesOfChar_append, indexesOfChar_not_mem '/' a ha]
  rw [show indexesOfChar '/' ('/' :: b) =
    (if ('/' : Char) = '/' then 0 :: (indexesOfChar '/' b).map (· + 1)
     else (indexesOfChar '/' b).map (· + 1)) from rfl]
  rw [if_pos rfl, indexesOfChar_not_mem '/' b hb]
  simp

theorem scanTransform_canvasSeg (st : CanvasState) :
    scanTransform (serializeCanvasSegment st) = none := by
  have hb : '/' ∉ fmtRounded st.viewportX ++
      (',' :: (fmtRounded st.viewportY ++ (',' :: fmtRounded st.zoom))) := by
    intro hc
    rcases List.mem_append.1 hc with hc | hc
    · exact slash_not_mem_fmtRounded _ hc
    · rcases List.mem_cons.1 hc with hc | hc
      · cases hc
      · rcases List.mem_append.1 hc with hc | hc
        · exact slash_not_mem_fmtRounded _ hc
        · rcases List.mem_cons.1 hc with hc | hc
          · cases hc
          · exact slash_not_mem_fmtRounded _ hc
  have hidx : indexesOfChar '/' (serializeCanvasSegment st) = [strCanvas.length] := by
    rw [serializeCanvasSegment]
    exact indexesOfChar_single_slash strCanvas _ (by decide) hb
  rw [scanTransform_unfold, hidx, if_pos (by simp)]

theorem filter_objs (l : List CanvasObject)
    (h : ∀ o ∈ l, o.isFrameObject = false ∧ o.isEmptyFrame = false) :
    l.filter (fun o => !o.isFrameObject && !o.isEmptyFrame) = l := by
  induction l with
  | nil => rfl
  | cons o t ih =>
    rw [List.filter_cons, if_pos (by
      obtain ⟨h1, h2⟩ := h o (by simp)
      simp [h1, h2])]
    rw [ih fun y hy => h y (by simp [hy])]

theorem tyS_facts (s : JSString) (h : s = strImage ∨ s = strIframe) :
    ',' ∉ s ∧ ':' ∉ s ∧ jsParseFloat s = none ∧ s ≠ [] ∧ '/' ∉ s ∧ '#' ∉ s ∧ '|' ∉ s := by
  rcases h with rfl | rfl <;>
    exact ⟨by decide, by decide, by with_unfolding_all decide, by decide,
      by decide, by decide, by decide⟩

theorem not_mem_entry (c : Char) (k v : JSString) (hk : c ∉ k) (hc : c ≠ ':')
    (hv : c ∉ v) : c ∉ (k ++ ':' :: v) := by
  intro h
  rcases List.mem_append.1 h with h | h
  · exact hk h
  · rcases List.mem_cons.1 h with h | h
    · exact hc h
    · exact hv h

theorem modePart_eq (o : CanvasObject) (dm : JSString)
    (hdm : o.displayMode = some (FlagVal.str dm)) (hne : dm ≠ []) :
    modePart o = ',' :: (strMode ++ ':' :: dm) := by
  unfold modePart
  rw [hdm]
  show (if truthyFlag (FlagVal.str dm) then
    ',' :: (strMode ++ ':' :: flagValToStr (FlagVal.str dm)) else []) = _
  rw [if_pos (by
    cases dm with
    | nil => exact absurd rfl hne
    | cons a as => rfl)]
  rfl

theorem ogPart_none (o : CanvasObject) (h : o.ogImage = none) : ogPart o = [] := by
  unfold ogPart
  rw [h]

theorem ogPart_some (o : CanvasObject) (g : JSString) (h : o.ogImage = some g)
    (hne : g ≠ []) : ogPart o = ',' :: (strOg ++ ':' :: encodeURIComponent g) := by
  unfold ogPart
  rw [h]
  show (if g.isEmpty then [] else ',' :: (strOg ++ ':' :: encodeURIComponent g)) = _
  rw [if_neg (by simp [List.isEmpty_iff, hne])]

theorem mapSet_nil (k : JSString) (v : FlagVal) : mapSet [] k v = [(k, v)] := rfl

theorem parseFlags_serialized_og_none (o : CanvasObject) (tyS dm : JSString)
    (hty : o.type = FlagVal.str tyS) (htyS : tyS = strImage ∨ tyS = strIframe)
    (hdm : o.displayMode = some (FlagVal.str dm))
    (hdmS : dm = strImage ∨ dm = strIframe)
    (hog : o.ogImage = none) :
    parseFlags (objFlagsString o) =
      [(strType, FlagVal.str tyS), (strRatio, FlagVal.num (roundNum (objRatio o))),
        (strMode, FlagVal.str dm)] := by
  obtain ⟨hty1, hty2, hty3, hty4, -, -, -⟩ := tyS_facts tyS htyS
  obtain ⟨hdm1, hdm2, hdm3, hdm4, -, -, -⟩ := tyS_facts dm hdmS
  have hshape : objFlagsString o =
      (strType ++ ':' :: tyS) ++ ',' :: ((strRatio ++ ':' :: fmtRounded (objRatio o))
        ++ ',' :: (strMode ++ ':' :: dm)) := by
    unfold objFlagsString
    rw [hty, modePart_eq o dm hdm hdm4, ogPart_none o hog]
    simp [flagValToStr, objRatio]
  have hsplit : splitOnChar ',' (objFlagsString o) =
      [strType ++ ':' :: tyS, strRatio ++ ':' :: fmtRounded (objRatio o),
        strMode ++ ':' :: dm] := by
    rw [hshape,
      splitOnChar_append _ _ _ (not_mem_entry ',' _ _ (by decide) (by decide) hty1),
      splitOnChar_append _ _ _
        (not_mem_entry ',' _ _ (by decide) (by decide) (comma_not_mem_fmtRounded _)),
      splitOnChar_not_mem _ _ (not_mem_entry ',' _ _ (by decide) (by decide) hdm1)]
  unfold parseFlags
  rw [if_neg (by rw [hshape]; simp [List.isEmpty_iff, strType]), hsplit]
  rw [List.foldl_cons, parseFlagEntry_std [] strType tyS (by decide) (by decide),
    numOrStr_str tyS hty3, mapSet_nil]
  rw [List.foldl_cons, parseFlagEntry_std _ strRatio _ (by decide) (by decide),
    numOrStr_num _ _ (jsParseFloat_fmtRounded _),
    mapSet_cons_ne _ _ _ _ _ (by decide), mapSet_nil]
  rw [List.foldl_cons, parseFlagEntry_std _ strMode dm (by decide) (by decide),
    numOrStr_str dm hdm3,
    mapSet_cons_ne _ _ _ _ _ (by decide), mapSet_cons_ne _ _ _ _ _ (by decide), mapSet_nil]
  rfl

theorem parseFlags_serialized_og_some (o : CanvasObject) (tyS dm g : JSString)
    (hty : o.type = FlagVal.str tyS) (htyS : tyS = strImage ∨ tyS = strIframe)
    (hdm : o.displayMode = some (FlagVal.str dm))
    (hdmS : dm = strImage ∨ dm = strIframe)
    (hog : o.ogImage = some g)
    (hgh : jsStartsWith g httpPfx = true ∨ jsStartsWith g httpsPfx = true)
    (hga : ∀ c ∈ g, c.toNat < 128) :
    parseFlags (objFlagsString o) =
      [(strType, FlagVal.str tyS), (strRatio, FlagVal.num (roundNum (objRatio o))),
        (strMode, FlagVal.str dm), (strOg, FlagVal.str (encodeURIComponent g))] := by
  obtain ⟨hty1, hty2, hty3, hty4, -, -, -⟩ := tyS_facts tyS htyS
  obtain ⟨hdm1, hdm2, hdm3, hdm4, -, -, -⟩ := tyS_facts dm hdmS
  have hgne : g ≠ [] := by
    rcases hgh with h | h <;> obtain ⟨u, rfl⟩ := (jsStartsWith_iff _ _).1 h <;>
      · intro hc
        rw [List.append_eq_nil] at hc
        exact absurd hc.1 (by decide)
  have hshape : objFlagsString o =
      (strType ++ ':' :: tyS) ++ ',' :: ((strRatio ++ ':' :: fmtRounded (objRatio o))
        ++ ',' :: ((strMode ++ ':' :: dm)
        ++ ',' :: (strOg ++ ':' :: encodeURIComponent g))) := by
    unfold objFlagsString
    rw [hty, modePart_eq o dm hdm hdm4, ogPart_some o g hog hgne]
    simp [flagValToStr, objRatio]
  have hsplit : splitOnChar ',' (objFlagsString o) =
      [strType ++ ':' :: tyS, strRatio ++ ':' :: fmtRounded (objRatio o),
        strMode ++ ':' :: dm, strOg ++ ':' :: encodeURIComponent g] := by
    rw [hshape,
      splitOnChar_append _ _ _ (not_mem_entry ',' _ _ (by decide) (by decide) hty1),
      splitOnChar_append _ _ _
        (not_mem_entry ',' _ _ (by decide) (by decide) (comma_not_mem_fmtRounded _)),
      splitOnChar_append _ _ _ (not_mem_entry ',' _ _ (by decide) (by decide) hdm1),
      splitOnChar_not_mem _ _
        (not_mem_entry ',' _ _ (by decide) (by decide) (comma_not_mem_encode g hga))]
  unfold parseFlags
  rw [if_neg (by rw [hshape]; simp [List.isEmpty_iff, strType]), hsplit]
  rw [List.foldl_cons, parseFlagEntry_std [] strType tyS (by decide) (by decide),
    numOrStr_str tyS hty3, mapSet_nil]
  rw [List.foldl_cons, parseFlagEntry_std _ strRatio _ (by decide) (by decide),
    numOrStr_num _ _ (jsParseFloat_fmtRounded _),
    mapSet_cons_ne _ _ _ _ _ (by decide), mapSet_nil]
  rw [List.foldl_cons, parseFlagEntry_std _ strMode dm (by decide) (by decide),
    numOrStr_str dm hdm3,
    mapSet_cons_ne _ _ _ _ _ (by decide), mapSet_cons_ne _ _ _ _ _ (by decide), mapSet_nil]
  rw [List.foldl_cons,
    parseFlagEntry_std _ strOg (encodeURIComponent g) (by decide) (by decide),
    numOrStr_str _ (jsParseFloat_encode_http g hgh),
    mapSet_cons_ne _ _ _ _ _ (by decide), mapSet_cons_ne _ _ _ _ _ (by decide),
    mapSet_cons_ne _ _ _ _ _ (by decide), mapSet_nil]
  rfl

theorem http_ne_canvas (s : JSString)
    (h : jsStartsWith s httpPfx = true ∨ jsStartsWith s httpsPfx = true) :
    ¬(s = strCanvas) := by
  rcases h with h | h <;> obtain ⟨u, rfl⟩ := (jsStartsWith_iff _ _).1 h <;>
    · intro hc
      have hlen := congrArg List.length hc
      simp only [List.length_append] at hlen
      revert hlen
      first
        | (rw [show (httpPfx : JSString).length = 7 from rfl,
            show (strCanvas : JSString).length = 6 from rfl]; omega)
        | (rw [show (httpsPfx : JSString).length = 8 from rfl,
            show (strCanvas : JSString).length = 6 from rfl]; omega)

theorem http_ne_nil (s : JSString)
    (h : jsStartsWith s httpPfx = true ∨ jsStartsWith s httpsPfx = true) :
    s ≠ [] := by
  rcases h with h | h <;> obtain ⟨u, rfl⟩ := (jsStartsWith_iff _ _).1 h <;>
    · intro hc
      rw [List.append_eq_nil] at hc
      exact absurd hc.1 (by decide)

theorem not_mem_objFlags (o : CanvasObject) (tyS dm : JSString)
    (hty : o.type = FlagVal.str tyS) (htyS : tyS = strImage ∨ tyS = strIframe)
    (hdm : o.displayMode = some (FlagVal.str dm)) (hdmS : dm = strImage ∨ dm = strIframe)
    (hogwf : ∀ g, o.ogImage = some g →
      (jsStartsWith g httpPfx = true ∨ jsStartsWith g httpsPfx = true) ∧
      (∀ c ∈ g, c.toNat < 128))
    (c : Char)
    (hc1 : c ∉ strType) (hc2 : c ∉ strRatio) (hc3 : c ∉ strMode) (hc4 : c ∉ strOg)
    (hc5 : c ∉ strImage) (hc6 : c ∉ strIframe)
    (hc7 : c ≠ ':') (hc8 : c ≠ ',')
    (hf1 : isDigitChar c = false) (hf2 : c ≠ '.') (hf3 : c ≠ '-')
    (he1 : isUnreservedChar c = false) (he2 : c ≠ '%')
    (he3 : ∀ n, n < 16 → c ≠ hexDigitChar n) :
    c ∉ objFlagsString o := by
  have hcty : c ∉ tyS := by rcases htyS with rfl | rfl <;> assumption
  have hcdm : c ∉ dm := by rcases hdmS with rfl | rfl <;> assumption
  have hdm4 : dm ≠ [] := (tyS_facts dm hdmS).2.2.2.1
  have hfr : c ∉ fmtRounded (objRatio o) := not_mem_fmtScaled 3 _ c hf1 hf2 hf3
  have hmode : c ∉ modePart o := by
    rw [modePart_eq o dm hdm hdm4]
    intro hmem
    rcases List.mem_cons.1 hmem with hmem | hmem
    · exact hc8 hmem
    · exact not_mem_entry c _ _ hc3 hc7 hcdm hmem
  have hogp : c ∉ ogPart o := by
    rcases hogc : o.ogImage with _ | g
    · rw [ogPart_none o hogc]
      simp
    · obtain ⟨hgh, hga⟩ := hogwf g hogc
      rw [ogPart_some o g hogc (http_ne_nil g hgh)]
      intro hmem
      rcases List.mem_cons.1 hmem with hmem | hmem
      · exact hc8 hmem
      · exact not_mem_entry c _ _ hc4 hc7
          (not_mem_encodeURIComponent g hga c he1 he2 he3) hmem
  intro hmem
  unfold objFlagsString at hmem
  rw [hty] at hmem
  rcases List.mem_append.1 hmem with hmem | hmem
  · rcases List.mem_append.1 hmem with hmem | hmem
    · rcases List.mem_append.1 hmem with hmem | hmem
      · exact hc1 hmem
      · rcases List.mem_cons.1 hmem with hmem | hmem
        · exact hc7 hmem
        · rcases List.mem_append.1 hmem with hmem | hmem
          · exact hcty hmem
          · rcases List.mem_cons.1 hmem with hmem | hmem
            · exact hc8 hmem
            · rcases List.mem_append.1 hmem with hmem | hmem
              · exact hc2 hmem
              · rcases List.mem_cons.1 hmem with hmem | hmem
                · exact hc7 hmem
                · exact hfr hmem
    · exact hmode hmem
  · exact hogp hmem

theorem pushObject_eq (store eph : Store) (d : DecodeState) (ref f : JSString)
    (tx ty0 ts tr : ℚ) :
    pushObject store eph d ref f tx ty0 ts tr =
      pushWith d
        (fun content => {
          id := d.nextId,
          type := (getFlag (parseFlags f) strType).getD (FlagVal.str strImage),
          x := tx, y := ty0,
          width := baseSize * ts,
          height := baseSize * ts * safeRatioOf (parseFlags f),
          rotation := tr,
          content := content, sourceRef := ref,
          originalAspectRatio := safeRatioOf (parseFlags f),
          ogImage := ogOf (parseFlags f),
          displayMode :=
            some ((getFlag (parseFlags f) strMode).getD (FlagVal.str strImage)) })
        (if contentTruthy (resolveContent store eph ref
            ((getFlag (parseFlags f) strType).getD (FlagVal.str strImage))) then
          resolveContent store eph ref
            ((getFlag (parseFlags f) strType).getD (FlagVal.str strImage))
        else if (getFlag (parseFlags f) strType).getD (FlagVal.str strImage) =
            FlagVal.str strImage then
          some transparentPixel
        else none) := rfl

theorem safeRatioOf_eval (v1 : FlagVal) (rest : List (JSString × FlagVal)) (q : ℚ) :
    safeRatioOf ((strType, v1) :: (strRatio, FlagVal.num q) :: rest) = q := by
  unfold safeRatioOf
  rw [getFlag_cons_ne _ _ _ _ (by decide), getFlag_cons_eq _ _ _ _ rfl]
  rfl

theorem ogOf_none (fm : List (JSString × FlagVal)) (h : getFlag fm strOg = none) :
    ogOf fm = none := by
  unfold ogOf
  rw [h]

theorem ogOf_some_str (fm : List (JSString × FlagVal)) (s : JSString)
    (h : getFlag fm strOg = some (FlagVal.str s)) (hne : s ≠ []) :
    ogOf fm = some (decodeURIComponent s) := by
  unfold ogOf
  rw [h]
  show (if truthyFlag (FlagVal.str s) then
    some (decodeURIComponent (flagValToStr (FlagVal.str s))) else none) = _
  rw [if_pos (by
    cases s with
    | nil => exact absurd rfl hne
    | cons a as => rfl)]
  rfl

theorem stepSegment_roundTrip (store eph : Store) (d : DecodeState) (o : CanvasObject)
    (hO : objOK store o) (hseen : objSegKey o ∉ d.seen) :
    stepSegment store eph d (serializeObjectSegment o) =
      { objects := d.objects ++ [roundTripped d.nextId o],
        seen := objSegKey o :: d.seen,
        viewportX := d.viewportX, viewportY := d.viewportY, zoom := d.zoom,
        nextId := d.nextId + 1 } := by
  obtain ⟨hhttp, hascii, hcontent, hfile, ⟨tyS, hty, htyS, hifr⟩,
    ⟨dm, hdm, hdmS⟩, hogwf, hfro, hefo⟩ := hO
  have hsrcne : o.sourceRef ≠ [] := http_ne_nil _ hhttp
  have hr : '/' ∉ encodeURIComponent o.sourceRef := slash_not_mem_encode _ hascii
  have ht' : '/' ∉ objTransformString o :=
    not_mem_transform o '/' (by decide) (by decide) (by decide) (by decide)
  have hfslash : '/' ∉ objFlagsString o :=
    not_mem_objFlags o tyS dm hty htyS hdm hdmS hogwf '/' (by decide) (by decide)
      (by decide) (by decide) (by decide) (by decide) (by decide) (by decide)
      (by decide) (by decide) (by decide) (by decide) (by decide)
      (by intro n hn; interval_cases n <;> decide)
  have hscan : scanTransform (serializeObjectSegment o) =
      some (encodeURIComponent o.sourceRef, objTransformString o, objFlagsString o) := by
    rw [show serializeObjectSegment o = encodeURIComponent o.sourceRef ++
      '/' :: (objTransformString o ++ '/' :: objFlagsString o) from rfl]
    exact scanTransform_std _ _ _ hr ht' hfslash (encode_ne_nil _ hsrcne)
      (by rw [splitComma_transform]; rfl)
      (by rw [splitComma_transform]; simp [jsParseFloat_fmtRounded])
  rw [stepSegment_scan_some _ _ _ _ _ _ _ hscan]
  rw [stepParsed, if_neg (by rw [show segKey (encodeURIComponent o.sourceRef)
    (objTransformString o) (objFlagsString o) = objSegKey o from rfl]; exact hseen)]
  have hdec : decodeURIComponent (encodeURIComponent o.sourceRef) = o.sourceRef :=
    decodeURIComponent_encodeURIComponent _ hascii
  rw [hdec, if_neg (http_ne_canvas _ hhttp)]
  have hnums : parsedNums (objTransformString o) =
      [some (roundNum o.x), some (roundNum o.y),
        some (roundNum (o.width / baseSize)), some (roundNum o.rotation)] := by
    rw [parsedNums, splitComma_transform]
    simp [jsParseFloat_fmtRounded]
  rw [hnums]
  have hsn : ∀ d' : DecodeState, stepNums store eph d' o.sourceRef (objFlagsString o)
      [some (roundNum o.x), some (roundNum o.y),
        some (roundNum (o.width / baseSize)), some (roundNum o.rotation)] =
      pushObject store eph d' o.sourceRef (objFlagsString o) (roundNum o.x)
        (roundNum o.y) (roundNum (o.width / baseSize)) (roundNum o.rotation) :=
    fun d' => rfl
  rw [hsn, pushObject_eq]
  have hct : contentTruthy (some o.sourceRef) = true := by
    cases hsr : o.sourceRef with
    | nil => exact absurd hsr hsrcne
    | cons a as => rfl
  have hifr' : FlagVal.str tyS = FlagVal.str strIframe → isValidUrl o.sourceRef = true :=
    fun h => hifr (FlagVal.str.inj h)
  rcases hogc : o.ogImage with _ | g
  · have hpf := parseFlags_serialized_og_none o tyS dm hty htyS hdm hdmS hogc
    rw [hpf]
    rw [getFlag_cons_eq _ _ _ _ rfl]
    rw [show getFlag [(strType, FlagVal.str tyS),
      (strRatio, FlagVal.num (roundNum (objRatio o))),
      (strMode, FlagVal.str dm)] strMode = some (FlagVal.str dm) from by
      rw [getFlag_cons_ne _ _ _ _ (by decide), getFlag_cons_ne _ _ _ _ (by decide),
        getFlag_cons_eq _ _ _ _ rfl]]
    rw [show safeRatioOf [(strType, FlagVal.str tyS),
      (strRatio, FlagVal.num (roundNum (objRatio o))), (strMode, FlagVal.str dm)] =
      roundNum (objRatio o) from safeRatioOf_eval _ _ _]
    rw [ogOf_none _ (by
      rw [getFlag_cons_ne _ _ _ _ (by decide), getFlag_cons_ne _ _ _ _ (by decide),
        getFlag_cons_ne _ _ _ _ (by decide)]
      rfl)]
    simp only [Option.getD_some]
    rw [resolveContent_absolute_url store eph o.sourceRef (FlagVal.str tyS)
      hhttp hfile hifr']
    rw [if_pos hct]
    simp only [pushWith]
    have hrt : roundTripped d.nextId o =
        { id := d.nextId, type := FlagVal.str tyS, x := roundNum o.x, y := roundNum o.y,
          width := baseSize * roundNum (o.width / baseSize),
          height := baseSize * roundNum (o.width / baseSize) * roundNum (objRatio o),
          rotation := roundNum o.rotation,
          content := o.sourceRef, sourceRef := o.sourceRef,
          originalAspectRatio := roundNum (objRatio o),
          ogImage := none, displayMode := some (FlagVal.str dm) } := by
      unfold roundTripped
      rw [hty, hdm, hogc]
    rw [hrt]
    rfl
  · obtain ⟨hgh, hga⟩ := hogwf g hogc
    have hgne : g ≠ [] := http_ne_nil g hgh
    have hpf := parseFlags_serialized_og_some o tyS dm g hty htyS hdm hdmS hogc hgh hga
    rw [hpf]
    rw [getFlag_cons_eq _ _ _ _ rfl]
    rw [show getFlag [(strType, FlagVal.str tyS),
      (strRatio, FlagVal.num (roundNum (objRatio o))),
      (strMode, FlagVal.str dm), (strOg, FlagVal.str (encodeURIComponent g))] strMode =
      some (FlagVal.str dm) from by
      rw [getFlag_cons_ne _ _ _ _ (by decide), getFlag_cons_ne _ _ _ _ (by decide),
        getFlag_cons_eq _ _ _ _ rfl]]
    rw [show safeRatioOf [(strType, FlagVal.str tyS),
      (strRatio, FlagVal.num (roundNum (objRatio o))), (strMode, FlagVal.str dm),
      (strOg, FlagVal.str (encodeURIComponent g))] =
      roundNum (objRatio o) from safeRatioOf_eval _ _ _]
    rw [ogOf_some_str _ (encodeURIComponent g) (by
      rw [getFlag_cons_ne _ _ _ _ (by decide), getFlag_cons_ne _ _ _ _ (by decide),
        getFlag_cons_ne _ _ _ _ (by decide), getFlag_cons_eq _ _ _ _ rfl])
      (encode_ne_nil g hgne)]
    rw [decodeURIComponent_encodeURIComponent g hga]
    simp only [Option.getD_some]
    rw [resolveContent_absolute_url store eph o.sourceRef (FlagVal.str tyS)
      hhttp hfile hifr']
    rw [if_pos hct]
    simp only [pushWith]
    have hrt : roundTripped d.nextId o =
        { id := d.nextId, type := FlagVal.str tyS, x := roundNum o.x, y := roundNum o.y,
          width := baseSize * roundNum (o.width / baseSize),
          height := baseSize * roundNum (o.width / baseSize) * roundNum (objRatio o),
          rotation := roundNum o.rotation,
          content := o.sourceRef, sourceRef := o.sourceRef,
          originalAspectRatio := roundNum (objRatio o),
          ogImage := some g, displayMode := some (FlagVal.str dm) } := by
      unfold roundTripped
      rw [hty, hdm, hogc]
    rw [hrt]
    rfl

theorem objSegKey_inj (store : Store) (o o' : CanvasObject)
    (hO : objOK store o) (hO' : objOK store o')
    (h : objSegKey o = objSegKey o') :
    serializeObjectSegment o = serializeObjectSegment o' := by
  have hp : '|' ∉ encodeURIComponent o.sourceRef := pipe_not_mem_encode _ hO.2.1
  have hp' : '|' ∉ encodeURIComponent o'.sourceRef := pipe_not_mem_encode _ hO'.2.1
  have ht : '|' ∉ objTransformString o :=
    not_mem_transform o '|' (by decide) (by decide) (by decide) (by decide)
  have ht' : '|' ∉ objTransformString o' :=
    not_mem_transform o' '|' (by decide) (by decide) (by decide) (by decide)
  unfold objSegKey at h
  obtain ⟨h1, h2, h3⟩ := segKey_inj _ _ _ _ _ _ hp hp' ht ht' h
  rw [show serializeObjectSegment o = encodeURIComponent o.sourceRef ++
    '/' :: (objTransformString o ++ '/' :: objFlagsString o) from rfl,
    show serializeObjectSegment o' = encodeURIComponent o'.sourceRef ++
    '/' :: (objTransformString o' ++ '/' :: objFlagsString o') from rfl,
    h1, h2, h3]

theorem roundTrippedList_length (n : Nat) (l : List CanvasObject) :
    (roundTrippedList n l).length = l.length := by
  induction l generalizing n with
  | nil => rfl
  | cons o rest ih =>
    show (roundTripped n o :: roundTrippedList (n + 1) rest).length = rest.length + 1
    rw [List.length_cons, ih (n + 1)]

theorem foldl_serialized (store eph : Store) (l : List CanvasObject) (d : DecodeState)
    (hO : ∀ o ∈ l, objOK store o)
    (hseen : ∀ o ∈ l, objSegKey o ∉ d.seen)
    (hdist : (l.map serializeObjectSegment).Pairwise (· ≠ ·)) :
    (l.map serializeObjectSegment).foldl (stepSegment store eph) d =
      { objects := d.objects ++ roundTrippedList d.nextId l,
        seen := (l.map objSegKey).reverse ++ d.seen,
        viewportX := d.viewportX, viewportY := d.viewportY, zoom := d.zoom,
        nextId := d.nextId + l.length } := by
  induction l generalizing d with
  | nil =>
    obtain ⟨a, b, c2, e2, f2, g2⟩ := d
    simp [roundTrippedList]
  | cons o rest ih =>
    simp only [List.map_cons, List.foldl_cons]
    rw [stepSegment_roundTrip store eph d o (hO o (by simp)) (hseen o (by simp))]
    obtain ⟨hdh, hdt⟩ := List.pairwise_cons.1 hdist
    rw [ih _ (fun o' ho' => hO o' (by simp [ho']))
      (by
        intro o' ho'
        show objSegKey o' ∉ objSegKey o :: d.seen
        rw [List.mem_cons]
        rintro (hk | hk)
        · exact hdh (serializeObjectSegment o') (List.mem_map_of_mem _ ho')
            (objSegKey_inj store o' o (hO o' (by simp [ho'])) (hO o (by simp)) hk).symm
        · exact hseen o' (by simp [ho']) hk)
      hdt]
    congr 1
    all_goals first
      | rfl
      | exact (by omega : d.nextId + 1 + rest.length = d.nextId + (rest.length + 1))
      | simp [roundTrippedList]

/-- C1 as amended: encoding the viewport and scene and decoding the resulting
fragment (in the component that produced it) restores the viewport exactly and
restores the object list up to 3-decimal rounding of the numeric fields, with
fresh `id`s — provided the objects' serialized segments are pairwise distinct
(the decoder's dedup pass collapses duplicates, see the counterexample) and
each object satisfies the `objOK` well-formedness class (absolute `http(s)`
ASCII references, flag-safe `type`/`mode`, no shadowing storage entry). -/
theorem c1_round_trip_amended (st : CanvasState)
    (hO : ∀ o ∈ st.objects, objOK st.localStore o)
    (hdist : (st.objects.map serializeObjectSegment).Pairwise (· ≠ ·)) :
    (applyHashState st ('#' :: serializeStateToHash st)).viewportX = st.viewportX ∧
    (applyHashState st ('#' :: serializeStateToHash st)).viewportY = st.viewportY ∧
    (applyHashState st ('#' :: serializeStateToHash st)).zoom = st.zoom ∧
    (applyHashState st ('#' :: serializeStateToHash st)).objects =
      roundTrippedList st.nextId st.objects ∧
    (applyHashState st ('#' :: serializeStateToHash st)).objects.length =
      st.objects.length := by
  have hfilter : st.objects.filter (fun o => !o.isFrameObject && !o.isEmptyFrame) =
      st.objects :=
    filter_objs _ (fun o ho => ⟨(hO o ho).2.2.2.2.2.2.2.1, (hO o ho).2.2.2.2.2.2.2.2⟩)
  have hhash : '#' :: serializeStateToHash st =
      mkFragment (serializeCanvasSegment st :: st.objects.map serializeObjectSegment) := by
    rw [mkFragment, serializeStateToHash, hfilter]
  have hwf : ∀ x ∈ serializeCanvasSegment st :: st.objects.map serializeObjectSegment,
      x ≠ [] ∧ '#' ∉ x := by
    intro x hx
    rcases List.mem_cons.1 hx with rfl | hx
    · exact ⟨serializeCanvasSegment_ne_nil st, hashch_not_mem_canvasSegment st⟩
    · obtain ⟨o, ho, rfl⟩ := List.mem_map.1 hx
      obtain ⟨hhttp, hascii, -, -, ⟨tyS, hty, htyS, -⟩, ⟨dm, hdm, hdmS⟩, hogwf, -, -⟩ :=
        hO o ho
      constructor
      · rw [show serializeObjectSegment o = encodeURIComponent o.sourceRef ++
          '/' :: (objTransformString o ++ '/' :: objFlagsString o) from rfl]
        simp
      · intro hmem
        rw [show serializeObjectSegment o = encodeURIComponent o.sourceRef ++
          '/' :: (objTransformString o ++ '/' :: objFlagsString o) from rfl] at hmem
        rcases List.mem_append.1 hmem with hmem | hmem
        · exact hashch_not_mem_encode _ hascii hmem
        · rcases List.mem_cons.1 hmem with hmem | hmem
          · cases hmem
          · rcases List.mem_append.1 hmem with hmem | hmem
            · exact not_mem_transform o '#' (by decide) (by decide) (by decide)
                (by decide) hmem
            · rcases List.mem_cons.1 hmem with hmem | hmem
              · cases hmem
              · exact not_mem_objFlags o tyS dm hty htyS hdm hdmS hogwf '#'
                  (by decide) (by decide) (by decide) (by decide) (by decide)
                  (by decide) (by decide) (by decide) (by decide) (by decide)
                  (by decide) (by decide) (by decide)
                  (by intro n hn; interval_cases n <;> decide) hmem
  rw [hhash, applyHashState_mkFragment st _ (by simp) hwf]
  have hds : decodeSegs st
      (serializeCanvasSegment st :: st.objects.map serializeObjectSegment) =
      { objects := [] ++ roundTrippedList st.nextId st.objects,
        seen := (st.objects.map objSegKey).reverse ++ [],
        viewportX := st.viewportX, viewportY := st.viewportY, zoom := st.zoom,
        nextId := st.nextId + st.objects.length } := by
    rw [decodeSegs, List.foldl_cons,
      stepSegment_scan_none _ _ _ _ (scanTransform_canvasSeg st)]
    exact foldl_serialized st.localStore st.ephemeralTokens st.objects _ hO
      (fun o ho => List.not_mem_nil _) hdist
  rw [hds]
  refine ⟨rfl, rfl, rfl, by simp, ?_⟩
  show ([] ++ roundTrippedList st.nextId st.objects).length = st.objects.length
  rw [List.nil_append, roundTrippedList_length]

set_option maxRecDepth 40000 in
/-- C1 counterexample to the unamended claim: a scene with the same object
twice serializes to two identical segments, and the decoder's dedup pass
collapses them — the decoded list has 1 object, not 2. -/
theorem c1_duplicate_counterexample :
    c1DupState.objects.length = 2 ∧
    (applyHashState c1DupState ('#' :: serializeStateToHash c1DupState)).objects.length
      = 1 := by
  constructor
  · rfl
  · with_unfolding_all decide

theorem c1_witness :
    (applyHashState c1State ('#' :: serializeStateToHash c1State)).viewportX =
      c1State.viewportX ∧
    (applyHashState c1State ('#' :: serializeStateToHash c1State)).viewportY =
      c1State.viewportY ∧
    (applyHashState c1State ('#' :: serializeStateToHash c1State)).zoom =
      c1State.zoom ∧
    (applyHashState c1State ('#' :: serializeStateToHash c1State)).objects =
      roundTrippedList c1State.nextId c1State.objects ∧
    (applyHashState c1State ('#' :: serializeStateToHash c1State)).objects.length =
      c1State.objects.length :=
  c1_round_trip_amended c1State
    (by
      intro o ho
      rw [show c1State.objects = [c1Obj] from rfl, List.mem_singleton] at ho
      subst ho
      exact ⟨Or.inl (by decide), by decide, rfl, rfl,
        ⟨strImage, rfl, Or.inl rfl, fun h => absurd h (by decide)⟩,
        ⟨strImage, rfl, Or.inl rfl⟩,
        fun g hg => Option.noConfusion hg, rfl, rfl⟩)
    (by
      rw [show c1State.objects = [c1Obj] from rfl]
      simp)
